import Mathlib

/-!
Verification of the `kak-lsp` language-server transport layer
(`src/language_server_transport.rs`) and of `insert_value` from
`src/workspace.rs`.

The Rust code is shallowly embedded: byte streams are `List Nat`
(each entry one byte), Rust `String` is Lean `String`, machine
integers are `Nat`/`Int` with explicit bounds where overflow or
parse limits matter (`usize`/`u64`/`i64` are 64-bit).  JSON values
(`serde_json::Value`) are modelled by the inductive `Json` below with
numbers restricted to integers (floating-point numbers are outside
the model).  Fallible operations return `Option`/`Except`.
-/

namespace KakLsp

/-! ## ASCII whitespace, trimming, and header-line splitting

`str::trim` removes Unicode whitespace from both ends of a line; the
model covers the ASCII whitespace characters, which are the only ones
the transport ever produces. -/

def isWsA (c : Char) : Bool :=
  c = ' ' || c = '\t' || c = '\n' || c = '\r'

/-- Model of Rust `str::trim` (restricted to ASCII whitespace). -/
def trimA (s : List Char) : List Char :=
  ((s.dropWhile isWsA).reverse.dropWhile isWsA).reverse

/-- Model of Rust `str::split(": ")`: split on every non-overlapping
occurrence of the two-character separator `": "`, left to right. -/
def splitCSAux (acc : List Char) : List Char → List (List Char)
  | [] => [acc.reverse]
  | c :: rest =>
    if c = ':' ∧ rest.head? = some ' ' then
      acc.reverse :: splitCSAux [] rest.tail
    else
      splitCSAux (c :: acc) rest
termination_by l => l.length
decreasing_by
  · simp only [List.length_cons]
    have : rest.tail.length ≤ rest.length := by
      cases rest <;> simp
    omega
  · simp

def splitCS (s : List Char) : List (List Char) := splitCSAux [] s

theorem splitCSAux_step (acc : List Char) (c : Char) (rest : List Char)
    (h : c ≠ ':') : splitCSAux acc (c :: rest) = splitCSAux (c :: acc) rest := by
  rw [splitCSAux]
  simp [h]

theorem splitCSAux_sep (acc rest : List Char) :
    splitCSAux acc (':' :: ' ' :: rest) = acc.reverse :: splitCSAux [] rest := by
  rw [splitCSAux]
  simp

/-- A run of characters containing no `':'` contains no separator. -/
theorem splitCSAux_no_colon (acc : List Char) (s : List Char)
    (h : ∀ c ∈ s, c ≠ ':') : splitCSAux acc s = [acc.reverse ++ s] := by
  induction s generalizing acc with
  | nil => simp [splitCSAux]
  | cons c rest ih =>
    rw [splitCSAux_step acc c rest (h c (by simp))]
    rw [ih (c :: acc) (fun x hx => h x (by simp [hx]))]
    simp

/-! ## Header mapping

`FnvHashMap<String, String>`: modelled as an association list with
insert-overwrite; `get` is exact (case-sensitive) key lookup. -/

def hInsert (k v : String) : List (String × String) → List (String × String)
  | [] => [(k, v)]
  | (k', v') :: rest =>
    if k' = k then (k, v) :: rest else (k', v') :: hInsert k v rest

def hGet (k : String) : List (String × String) → Option String
  | [] => none
  | (k', v') :: rest => if k' = k then some v' else hGet k rest

theorem hGet_hInsert_self (k v : String) (m : List (String × String)) :
    hGet k (hInsert k v m) = some v := by
  induction m with
  | nil => simp [hInsert, hGet]
  | cons hd tl ih =>
    obtain ⟨k', v'⟩ := hd
    by_cases h : k' = k <;> simp [hInsert, hGet, h, ih]

/-! ## Decimal numerals

Printing (`usize`/`u64` `Display`, used by `write!("{}", len)`) and
parsing (`str::parse::<usize>`, used for the Content-Length value). -/

def digitChar (d : Nat) : Char := Char.ofNat (48 + d)

def natDigits (n : Nat) : List Char :=
  if h : n < 10 then [digitChar n]
  else natDigits (n / 10) ++ [digitChar (n % 10)]
termination_by n
decreasing_by
  exact Nat.div_lt_self (by omega) (by omega)

def digitsVal (s : List Char) : Nat :=
  s.foldl (fun a c => a * 10 + (c.toNat - 48)) 0

theorem digitChar_toNat (d : Nat) (h : d < 10) : (digitChar d).toNat = 48 + d := by
  interval_cases d <;> decide

theorem digitChar_isDigit (d : Nat) (h : d < 10) : (digitChar d).isDigit = true := by
  interval_cases d <;> decide

theorem natDigits_all_digit (n : Nat) : ∀ c ∈ natDigits n, c.isDigit = true := by
  induction n using Nat.strong_induction_on with
  | _ n ih =>
    rw [natDigits]
    by_cases h : n < 10
    · simp only [h, dif_pos]
      intro c hc
      simp at hc
      subst hc
      exact digitChar_isDigit n h
    · simp only [h, dif_neg, not_false_iff]
      intro c hc
      rcases List.mem_append.mp hc with h1 | h2
      · exact ih (n / 10) (Nat.div_lt_self (by omega) (by omega)) c h1
      · simp at h2
        subst h2
        exact digitChar_isDigit (n % 10) (Nat.mod_lt n (by omega))

theorem natDigits_ne_nil (n : Nat) : natDigits n ≠ [] := by
  rw [natDigits]
  by_cases h : n < 10 <;> simp [h]

theorem digitsVal_append (s : List Char) (c : Char) :
    digitsVal (s ++ [c]) = digitsVal s * 10 + (c.toNat - 48) := by
  simp [digitsVal, List.foldl_append]

theorem digitsVal_natDigits (n : Nat) : digitsVal (natDigits n) = n := by
  induction n using Nat.strong_induction_on with
  | _ n ih =>
    rw [natDigits]
    by_cases h : n < 10
    · simp only [h, dif_pos]
      simp [digitsVal, digitChar_toNat n h]
    · simp only [h, dif_neg, not_false_iff]
      rw [digitsVal_append, ih (n / 10) (Nat.div_lt_self (by omega) (by omega)),
        digitChar_toNat (n % 10) (Nat.mod_lt n (by omega))]
      omega

/-- Model of Rust `str::parse::<usize>()`: optional leading `+`, then at
least one ASCII digit, rejecting values that overflow 64-bit `usize`. -/
def parseUsize (s : String) : Option Nat :=
  let cs0 := s.data
  let cs := if cs0.head? = some '+' then cs0.tail else cs0
  if cs ≠ [] ∧ cs.all Char.isDigit then
    if digitsVal cs < 2 ^ 64 then some (digitsVal cs) else none
  else
    none

theorem parseUsize_natDigits (n : Nat) (h : n < 2 ^ 64) :
    parseUsize (String.mk (natDigits n)) = some n := by
  have hne := natDigits_ne_nil n
  have hall := natDigits_all_digit n
  have hplus : (natDigits n).head? ≠ some '+' := by
    intro hcontra
    have hmem : '+' ∈ natDigits n := by
      cases hnd : natDigits n with
      | nil => rw [hnd] at hcontra; simp at hcontra
      | cons c rest =>
        rw [hnd] at hcontra
        simp at hcontra
        subst hcontra
        simp
    have := hall '+' hmem
    simp [Char.isDigit] at this
  unfold parseUsize
  simp only [String.data, if_neg hplus]
  rw [if_pos ⟨hne, List.all_eq_true.mpr hall⟩,
    digitsVal_natDigits, if_pos h]

/-! ## UTF-8

Byte-level model of Rust's UTF-8 encoding (`String::len`, `write!`)
and strict validating decoding (`String::from_utf8`,
`BufRead::read_line`): overlong forms, surrogates and out-of-range
scalars are rejected, exactly as Rust's validator does. -/

def utf8Char (c : Char) : List Nat :=
  let n := c.toNat
  if n < 0x80 then [n]
  else if n < 0x800 then [0xC0 + n / 0x40, 0x80 + n % 0x40]
  else if n < 0x10000 then
    [0xE0 + n / 0x1000, 0x80 + n / 0x40 % 0x40, 0x80 + n % 0x40]
  else
    [0xF0 + n / 0x40000, 0x80 + n / 0x1000 % 0x40, 0x80 + n / 0x40 % 0x40,
      0x80 + n % 0x40]

def utf8E (s : List Char) : List Nat := s.flatMap utf8Char

def mkChar (n : Nat) : Char := Char.ofNat n

def contB (b : Nat) : Bool := 0x80 ≤ b && b < 0xC0

/-- Byte at offset `i`, with an out-of-range sentinel value `0x100`
that no validity guard below accepts. -/
def byteAt (l : List Nat) (i : Nat) : Nat := l.getD i 0x100

/-- Decode one UTF-8 scalar from the front of a byte stream, returning
the character and the number of bytes consumed.  Rejects overlong
forms, surrogates and scalars above U+10FFFF, as Rust's validator
does. -/
def decodeOneAt (b0 b1 b2 b3 : Nat) : Option (Char × Nat) :=
  if b0 < 0x80 then some (mkChar b0, 1)
  else if 0xC2 ≤ b0 ∧ b0 ≤ 0xDF ∧ contB b1 then
    some (mkChar ((b0 - 0xC0) * 0x40 + (b1 - 0x80)), 2)
  else if 0xE0 ≤ b0 ∧ b0 ≤ 0xEF ∧ contB b1 ∧ contB b2 ∧
      0x800 ≤ (b0 - 0xE0) * 0x1000 + (b1 - 0x80) * 0x40 + (b2 - 0x80) ∧
      ¬(0xD800 ≤ (b0 - 0xE0) * 0x1000 + (b1 - 0x80) * 0x40 + (b2 - 0x80) ∧
        (b0 - 0xE0) * 0x1000 + (b1 - 0x80) * 0x40 + (b2 - 0x80) < 0xE000) then
    some (mkChar ((b0 - 0xE0) * 0x1000 + (b1 - 0x80) * 0x40 + (b2 - 0x80)), 3)
  else if 0xF0 ≤ b0 ∧ b0 ≤ 0xF4 ∧ contB b1 ∧ contB b2 ∧ contB b3 ∧
      0x10000 ≤ (b0 - 0xF0) * 0x40000 + (b1 - 0x80) * 0x1000 + (b2 - 0x80) * 0x40 +
        (b3 - 0x80) ∧
      (b0 - 0xF0) * 0x40000 + (b1 - 0x80) * 0x1000 + (b2 - 0x80) * 0x40 + (b3 - 0x80)
        < 0x110000 then
    some (mkChar ((b0 - 0xF0) * 0x40000 + (b1 - 0x80) * 0x1000 + (b2 - 0x80) * 0x40 +
      (b3 - 0x80)), 4)
  else none

/-- Decode one UTF-8 scalar from the front of a byte stream, returning
the character and the number of bytes consumed.  Rejects overlong
forms, surrogates and scalars above U+10FFFF, as Rust's validator
does. -/
def decodeOne (l : List Nat) : Option (Char × Nat) :=
  decodeOneAt (byteAt l 0) (byteAt l 1) (byteAt l 2) (byteAt l 3)

theorem decodeOne_nil : decodeOne [] = none := by
  unfold decodeOne decodeOneAt byteAt
  simp [contB]

theorem decodeOne_pos (l : List Nat) (c : Char) (k : Nat)
    (h : decodeOne l = some (c, k)) : 1 ≤ k := by
  unfold decodeOne decodeOneAt at h
  split_ifs at h <;> simp at h <;> omega

/-- Strict UTF-8 decoding of a whole byte stream
(`String::from_utf8`). -/
def utf8D (l : List Nat) : Option (List Char) :=
  match l with
  | [] => some []
  | b :: rest =>
    match h : decodeOne (b :: rest) with
    | none => none
    | some (c, k) => (utf8D ((b :: rest).drop k)).map (fun cs => c :: cs)
termination_by l.length
decreasing_by
  have hk := decodeOne_pos _ _ _ h
  simp only [List.length_drop, List.length_cons]
  omega

theorem utf8D_of_decodeOne (l : List Nat) (c : Char) (k : Nat)
    (h : decodeOne l = some (c, k)) :
    utf8D l = (utf8D (l.drop k)).map (fun cs => c :: cs) := by
  match l with
  | [] => rw [decodeOne_nil] at h; exact absurd h (by simp)
  | b :: rest =>
    rw [utf8D]
    split
    · rename_i heq
      rw [h] at heq
      exact absurd heq (by simp)
    · rename_i c' k' heq
      rw [h] at heq
      injection heq with heq2
      injection heq2 with hc hk
      subst hc
      subst hk
      rfl

theorem mkChar_toNat (c : Char) : mkChar c.toNat = c := by
  simp [mkChar]

theorem char_valid_ranges (c : Char) :
    c.toNat < 0xD800 ∨ (0xE000 ≤ c.toNat ∧ c.toNat < 0x110000) := by
  rcases c.valid with h | ⟨h1, h2⟩
  · left
    exact h
  · right
    exact ⟨h1, h2⟩

theorem byteAt_cons_zero (b : Nat) (l : List Nat) : byteAt (b :: l) 0 = b := by
  simp [byteAt]

theorem byteAt_cons_succ (b : Nat) (l : List Nat) (i : Nat) :
    byteAt (b :: l) (i + 1) = byteAt l i := by
  simp [byteAt]

theorem decodeOne_utf8Char (c : Char) (bs : List Nat) :
    decodeOne (utf8Char c ++ bs) = some (c, (utf8Char c).length) := by
  have hrange := char_valid_ranges c
  unfold utf8Char
  by_cases h1 : c.toNat < 0x80
  · rw [if_pos h1]
    unfold decodeOne decodeOneAt
    simp only [List.cons_append, List.nil_append, byteAt_cons_zero]
    rw [if_pos h1, mkChar_toNat]
    simp
  · by_cases h2 : c.toNat < 0x800
    · rw [if_neg h1, if_pos h2]
      unfold decodeOne decodeOneAt
      simp only [List.cons_append, List.nil_append, byteAt_cons_zero, byteAt_cons_succ]
      have hb0 : ¬(0xC0 + c.toNat / 0x40 < 0x80) := by omega
      have hcond : 0xC2 ≤ 0xC0 + c.toNat / 0x40 ∧ 0xC0 + c.toNat / 0x40 ≤ 0xDF ∧
          contB (0x80 + c.toNat % 0x40) = true := by
        refine ⟨by omega, by omega, ?_⟩
        simp only [contB, Bool.and_eq_true, decide_eq_true_eq]
        omega
      rw [if_neg hb0, if_pos hcond]
      have hval : (0xC0 + c.toNat / 0x40 - 0xC0) * 0x40 + (0x80 + c.toNat % 0x40 - 0x80)
          = c.toNat := by omega
      rw [hval, mkChar_toNat]
      simp
    · by_cases h3 : c.toNat < 0x10000
      · rw [if_neg h1, if_neg h2, if_pos h3]
        unfold decodeOne decodeOneAt
        simp only [List.cons_append, List.nil_append, byteAt_cons_zero, byteAt_cons_succ]
        have hb0 : ¬(0xE0 + c.toNat / 0x1000 < 0x80) := by omega
        have hc2 : ¬(0xC2 ≤ 0xE0 + c.toNat / 0x1000 ∧ 0xE0 + c.toNat / 0x1000 ≤ 0xDF ∧
            contB (0x80 + c.toNat / 0x40 % 0x40) = true) := by
          intro ⟨_, hcontra, _⟩
          omega
        have hval : (0xE0 + c.toNat / 0x1000 - 0xE0) * 0x1000 +
            (0x80 + c.toNat / 0x40 % 0x40 - 0x80) * 0x40 + (0x80 + c.toNat % 0x40 - 0x80)
            = c.toNat := by omega
        have hcond : 0xE0 ≤ 0xE0 + c.toNat / 0x1000 ∧ 0xE0 + c.toNat / 0x1000 ≤ 0xEF ∧
            contB (0x80 + c.toNat / 0x40 % 0x40) = true ∧
            contB (0x80 + c.toNat % 0x40) = true ∧
            0x800 ≤ (0xE0 + c.toNat / 0x1000 - 0xE0) * 0x1000 +
              (0x80 + c.toNat / 0x40 % 0x40 - 0x80) * 0x40 + (0x80 + c.toNat % 0x40 - 0x80) ∧
            ¬(0xD800 ≤ (0xE0 + c.toNat / 0x1000 - 0xE0) * 0x1000 +
              (0x80 + c.toNat / 0x40 % 0x40 - 0x80) * 0x40 + (0x80 + c.toNat % 0x40 - 0x80) ∧
              (0xE0 + c.toNat / 0x1000 - 0xE0) * 0x1000 +
              (0x80 + c.toNat / 0x40 % 0x40 - 0x80) * 0x40 + (0x80 + c.toNat % 0x40 - 0x80)
              < 0xE000) := by
          refine ⟨by omega, by omega, ?_, ?_, by omega, ?_⟩
          · simp only [contB, Bool.and_eq_true, decide_eq_true_eq]
            omega
          · simp only [contB, Bool.and_eq_true, decide_eq_true_eq]
            omega
          · rw [hval]
            omega
        rw [if_neg hb0, if_neg hc2, if_pos hcond, hval, mkChar_toNat]
        simp
      · rw [if_neg h1, if_neg h2, if_neg h3]
        unfold decodeOne decodeOneAt
        simp only [List.cons_append, List.nil_append, byteAt_cons_zero, byteAt_cons_succ]
        have hlt : c.toNat < 0x110000 := by omega
        have hb0 : ¬(0xF0 + c.toNat / 0x40000 < 0x80) := by omega
        have hc2 : ¬(0xC2 ≤ 0xF0 + c.toNat / 0x40000 ∧ 0xF0 + c.toNat / 0x40000 ≤ 0xDF ∧
            contB (0x80 + c.toNat / 0x1000 % 0x40) = true) := by
          intro ⟨_, hcontra, _⟩
          omega
        have hc3 : ¬(0xE0 ≤ 0xF0 + c.toNat / 0x40000 ∧ 0xF0 + c.toNat / 0x40000 ≤ 0xEF ∧
            contB (0x80 + c.toNat / 0x1000 % 0x40) = true ∧
            contB (0x80 + c.toNat / 0x40 % 0x40) = true ∧
            0x800 ≤ (0xF0 + c.toNat / 0x40000 - 0xE0) * 0x1000 +
              (0x80 + c.toNat / 0x1000 % 0x40 - 0x80) * 0x40 +
              (0x80 + c.toNat / 0x40 % 0x40 - 0x80) ∧
            ¬(0xD800 ≤ (0xF0 + c.toNat / 0x40000 - 0xE0) * 0x1000 +
              (0x80 + c.toNat / 0x1000 % 0x40 - 0x80) * 0x40 +
              (0x80 + c.toNat / 0x40 % 0x40 - 0x80) ∧
              (0xF0 + c.toNat / 0x40000 - 0xE0) * 0x1000 +
              (0x80 + c.toNat / 0x1000 % 0x40 - 0x80) * 0x40 +
              (0x80 + c.toNat / 0x40 % 0x40 - 0x80) < 0xE000)) := by
          intro ⟨_, hcontra, _⟩
          omega
        have hval : (0xF0 + c.toNat / 0x40000 - 0xF0) * 0x40000 +
            (0x80 + c.toNat / 0x1000 % 0x40 - 0x80) * 0x1000 +
            (0x80 + c.toNat / 0x40 % 0x40 - 0x80) * 0x40 +
            (0x80 + c.toNat % 0x40 - 0x80) = c.toNat := by omega
        have hcond : 0xF0 ≤ 0xF0 + c.toNat / 0x40000 ∧ 0xF0 + c.toNat / 0x40000 ≤ 0xF4 ∧
            contB (0x80 + c.toNat / 0x1000 % 0x40) = true ∧
            contB (0x80 + c.toNat / 0x40 % 0x40) = true ∧
            contB (0x80 + c.toNat % 0x40) = true ∧
            0x10000 ≤ (0xF0 + c.toNat / 0x40000 - 0xF0) * 0x40000 +
              (0x80 + c.toNat / 0x1000 % 0x40 - 0x80) * 0x1000 +
              (0x80 + c.toNat / 0x40 % 0x40 - 0x80) * 0x40 + (0x80 + c.toNat % 0x40 - 0x80) ∧
            (0xF0 + c.toNat / 0x40000 - 0xF0) * 0x40000 +
              (0x80 + c.toNat / 0x1000 % 0x40 - 0x80) * 0x1000 +
              (0x80 + c.toNat / 0x40 % 0x40 - 0x80) * 0x40 + (0x80 + c.toNat % 0x40 - 0x80)
              < 0x110000 := by
          refine ⟨by omega, by omega, ?_, ?_, ?_, by rw [hval]; omega, by rw [hval]; omega⟩ <;>
            simp only [contB, Bool.and_eq_true, decide_eq_true_eq] <;> omega
        rw [if_neg hb0, if_neg hc2, if_neg hc3, if_pos hcond, hval, mkChar_toNat]
        simp

theorem utf8D_utf8Char (c : Char) (bs : List Nat) :
    utf8D (utf8Char c ++ bs) = (utf8D bs).map (fun cs => c :: cs) := by
  rw [utf8D_of_decodeOne _ c (utf8Char c).length (decodeOne_utf8Char c bs),
    List.drop_left]

theorem utf8D_append_utf8E (s : List Char) (bs : List Nat) :
    utf8D (utf8E s ++ bs) = (utf8D bs).map (fun cs => s ++ cs) := by
  induction s with
  | nil =>
    simp only [utf8E, List.flatMap_nil, List.nil_append]
    cases utf8D bs <;> simp
  | cons c rest ih =>
    have : utf8E (c :: rest) = utf8Char c ++ utf8E rest := by
      simp [utf8E]
    rw [this, List.append_assoc, utf8D_utf8Char, ih]
    cases utf8D bs <;> simp

theorem utf8D_utf8E (s : List Char) : utf8D (utf8E s) = some s := by
  have := utf8D_append_utf8E s []
  simpa [utf8D] using this

theorem utf8E_append (s t : List Char) : utf8E (s ++ t) = utf8E s ++ utf8E t := by
  simp [utf8E]

/-- A newline byte in the encoding of a character forces that
character to be `'\n'` itself. -/
theorem newline_in_utf8Char (c : Char) (h : 10 ∈ utf8Char c) : c = '\n' := by
  unfold utf8Char at h
  by_cases h1 : c.toNat < 0x80
  · rw [if_pos h1] at h
    simp only [List.mem_singleton] at h
    have h10 : c.toNat = 10 := h.symm
    have := mkChar_toNat c
    rw [h10] at this
    rw [← this]
    rfl
  · by_cases h2 : c.toNat < 0x800
    · rw [if_neg h1, if_pos h2] at h
      simp only [List.mem_cons, List.mem_singleton, List.not_mem_nil, or_false] at h
      rcases h with h | h <;> omega
    · by_cases h3 : c.toNat < 0x10000
      · rw [if_neg h1, if_neg h2, if_pos h3] at h
        simp only [List.mem_cons, List.mem_singleton, List.not_mem_nil, or_false] at h
        rcases h with h | h | h <;> omega
      · rw [if_neg h1, if_neg h2, if_neg h3] at h
        simp only [List.mem_cons, List.mem_singleton, List.not_mem_nil, or_false] at h
        rcases h with h | h | h | h <;> omega

/-! ## JSON values

Model of `serde_json::Value` with numbers restricted to the integers
(`i64`/`u64`; floating-point values are outside the model).  Objects
are `serde_json::Map` = `BTreeMap<String, Value>`: entries sorted
strictly by key.  The parser below rebuilds objects through
`mapInsert`, exactly as `BTreeMap::insert` does, so a parsed object
is always sorted and duplicate-free (`canon` computes that normal
form). -/

inductive Json where
  | null
  | bool (b : Bool)
  | num (n : Int)
  | str (s : String)
  | arr (elems : List Json)
  | obj (members : List (String × Json))

/-- Lexicographic string order (the `Ord` used by
`BTreeMap<String, _>`; on UTF-8 strings byte order and code-point
order agree). -/
def strLtL : List Char → List Char → Bool
  | [], [] => false
  | [], _ :: _ => true
  | _ :: _, [] => false
  | a :: as, b :: bs => if a < b then true else if b < a then false else strLtL as bs

def strLt (a b : String) : Bool := strLtL a.data b.data

/-- `BTreeMap::insert` on the sorting-by-key association list. -/
def mapInsert (k : String) (v : Json) : List (String × Json) → List (String × Json)
  | [] => [(k, v)]
  | (k', v') :: rest =>
    if strLt k k' then (k, v) :: (k', v') :: rest
    else if k = k' then (k, v) :: rest
    else (k', v') :: mapInsert k v rest

/-- `BTreeMap::get` on the association list. -/
def lookupJ (k : String) : List (String × Json) → Option Json
  | [] => none
  | (k', v') :: rest => if k' = k then some v' else lookupJ k rest

mutual

/-- Normal form reached by parsing: object member lists re-inserted
into a `BTreeMap` (sorted, last duplicate wins), recursively. -/
def canon : Json → Json
  | .null => .null
  | .bool b => .bool b
  | .num n => .num n
  | .str s => .str s
  | .arr xs => .arr (canonList xs)
  | .obj kvs => .obj (canonInto [] kvs)

def canonList : List Json → List Json
  | [] => []
  | x :: xs => canon x :: canonList xs

def canonInto (acc : List (String × Json)) : List (String × Json) → List (String × Json)
  | [] => acc
  | (k, v) :: rest => canonInto (mapInsert k (canon v) acc) rest

end

mutual

/-- Well-formed JSON values: every number fits in `i64`/`u64`, as in
`serde_json::Value` integer numbers. -/
def jsonWf : Json → Bool
  | .null => true
  | .bool _ => true
  | .num n => (-(2 ^ 63) : Int) ≤ n && n < 2 ^ 64
  | .str _ => true
  | .arr xs => jsonWfList xs
  | .obj kvs => jsonWfMembers kvs

def jsonWfList : List Json → Bool
  | [] => true
  | x :: xs => jsonWf x && jsonWfList xs

def jsonWfMembers : List (String × Json) → Bool
  | [] => true
  | (_, v) :: rest => jsonWf v && jsonWfMembers rest

end

/-! ## JSON printing (`serde_json::to_string`, compact form) -/

def hexDig (n : Nat) : Char :=
  if n < 10 then digitChar n else Char.ofNat (87 + n)

/-- Escape one character of a JSON string, exactly as `serde_json`'s
compact serializer does: `"` and `\` get a two-character escape,
control characters use the short forms `\b \t \n \f \r` when
available and `\u00XX` (lowercase hex) otherwise; everything else,
including non-ASCII, is emitted unescaped. -/
def escChar (c : Char) : List Char :=
  if c = '"' then ['\\', '"']
  else if c = '\\' then ['\\', '\\']
  else if 0x20 ≤ c.toNat then [c]
  else if c.toNat = 8 then ['\\', 'b']
  else if c.toNat = 9 then ['\\', 't']
  else if c.toNat = 10 then ['\\', 'n']
  else if c.toNat = 12 then ['\\', 'f']
  else if c.toNat = 13 then ['\\', 'r']
  else ['\\', 'u', '0', '0', hexDig (c.toNat / 16), hexDig (c.toNat % 16)]

def printStrBody : List Char → List Char
  | [] => ['"']
  | c :: cs => escChar c ++ printStrBody cs

def printStr (s : String) : List Char := '"' :: printStrBody s.data

def printInt (n : Int) : List Char :=
  if n < 0 then '-' :: natDigits n.natAbs else natDigits n.natAbs

mutual

def printJson : Json → List Char
  | .null => "null".data
  | .bool true => "true".data
  | .bool false => "false".data
  | .num n => printInt n
  | .str s => printStr s
  | .arr xs => '[' :: printArrBody xs
  | .obj kvs => '{' :: printObjBody kvs

def printArrBody : List Json → List Char
  | [] => [']']
  | x :: xs => printJson x ++ printArrRest xs

def printArrRest : List Json → List Char
  | [] => [']']
  | x :: xs => ',' :: (printJson x ++ printArrRest xs)

def printObjBody : List (String × Json) → List Char
  | [] => ['}']
  | (k, v) :: rest => printStr k ++ ':' :: (printJson v ++ printObjRest rest)

def printObjRest : List (String × Json) → List Char
  | [] => ['}']
  | (k, v) :: rest => ',' :: (printStr k ++ ':' :: (printJson v ++ printObjRest rest))

end

/-! ## JSON parsing (`serde_json::from_str`)

Recursive-descent parser over `List Char`.  Fuel bounds the nesting
descent; `jsonFromStr` supplies `length + 1`, which the fuel lemmas
below show is always sufficient for printed values.  Numbers with a
fraction or exponent part, and numbers outside `i64`/`u64`, are
rejected (`serde_json` would parse them as floating-point, which is
outside the model). -/

def charAt (l : List Char) (i : Nat) : Char := l.getD i (Char.ofNat 0)

def skipWs (l : List Char) : List Char := l.dropWhile isWsA

def hexVal (c : Char) : Option Nat :=
  if '0' ≤ c ∧ c ≤ '9' then some (c.toNat - 48)
  else if 'a' ≤ c ∧ c ≤ 'f' then some (c.toNat - 87)
  else if 'A' ≤ c ∧ c ≤ 'F' then some (c.toNat - 55)
  else none

/-- Parse one string escape (the part after the backslash), returning
the decoded character and the number of characters consumed.  Lone
surrogates are rejected; a surrogate pair decodes to one scalar. -/
def parseEsc (l : List Char) : Option (Char × Nat) :=
  if charAt l 0 = '"' then some ('"', 1)
  else if charAt l 0 = '\\' then some ('\\', 1)
  else if charAt l 0 = '/' then some ('/', 1)
  else if charAt l 0 = 'b' then some (Char.ofNat 8, 1)
  else if charAt l 0 = 'f' then some (Char.ofNat 12, 1)
  else if charAt l 0 = 'n' then some ('\n', 1)
  else if charAt l 0 = 'r' then some ('\r', 1)
  else if charAt l 0 = 't' then some (Char.ofNat 9, 1)
  else if charAt l 0 = 'u' then
    match hexVal (charAt l 1), hexVal (charAt l 2), hexVal (charAt l 3),
        hexVal (charAt l 4) with
    | some h1, some h2, some h3, some h4 =>
      if ((h1 * 16 + h2) * 16 + h3) * 16 + h4 < 0xD800 ∨
          0xE000 ≤ ((h1 * 16 + h2) * 16 + h3) * 16 + h4 then
        some (mkChar (((h1 * 16 + h2) * 16 + h3) * 16 + h4), 5)
      else if ((h1 * 16 + h2) * 16 + h3) * 16 + h4 < 0xDC00 then
        if charAt l 5 = '\\' ∧ charAt l 6 = 'u' then
          match hexVal (charAt l 7), hexVal (charAt l 8), hexVal (charAt l 9),
              hexVal (charAt l 10) with
          | some g1, some g2, some g3, some g4 =>
            if 0xDC00 ≤ ((g1 * 16 + g2) * 16 + g3) * 16 + g4 ∧
                ((g1 * 16 + g2) * 16 + g3) * 16 + g4 < 0xE000 then
              some (mkChar (0x10000 +
                ((((h1 * 16 + h2) * 16 + h3) * 16 + h4) - 0xD800) * 0x400 +
                (((g1 * 16 + g2) * 16 + g3) * 16 + g4 - 0xDC00)), 11)
            else none
          | _, _, _, _ => none
        else none
      else none
    | _, _, _, _ => none
  else none

/-- Parse the body of a JSON string (the opening quote already
consumed), up to and including the closing quote.  Unescaped control
characters are rejected. -/
def parseStrBody (l : List Char) : Option (List Char × List Char) :=
  match l with
  | [] => none
  | c :: rest =>
    if c = '"' then some ([], rest)
    else if c = '\\' then
      match parseEsc rest with
      | some (e, k) =>
        match parseStrBody (rest.drop k) with
        | some (s, r) => some (e :: s, r)
        | none => none
      | none => none
    else if 0x20 ≤ c.toNat then
      match parseStrBody rest with
      | some (s, r) => some (c :: s, r)
      | none => none
    else none
termination_by l.length
decreasing_by
  · simp only [List.length_cons, List.length_drop]
    omega
  · simp

/-- Parse an unsigned decimal integer (maximal digit run), rejecting
an empty run, a redundant leading zero, and a following `.`/`e`/`E`
(a float, outside the integer model). -/
def parseNumNonNeg (l : List Char) : Option (Nat × List Char) :=
  if l.takeWhile Char.isDigit = [] then none
  else if (l.takeWhile Char.isDigit).length > 1 ∧
      (l.takeWhile Char.isDigit).head? = some '0' then none
  else if charAt (l.dropWhile Char.isDigit) 0 = '.' ∨
      charAt (l.dropWhile Char.isDigit) 0 = 'e' ∨
      charAt (l.dropWhile Char.isDigit) 0 = 'E' then none
  else some (digitsVal (l.takeWhile Char.isDigit), l.dropWhile Char.isDigit)

def parseNum (l : List Char) : Option (Json × List Char) :=
  if charAt l 0 = '-' then
    match parseNumNonNeg (l.drop 1) with
    | some (v, rest) =>
      if v ≤ 2 ^ 63 then some (Json.num (-(v : Int)), rest) else none
    | none => none
  else
    match parseNumNonNeg l with
    | some (v, rest) =>
      if v < 2 ^ 64 then some (Json.num (v : Int), rest) else none
    | none => none

mutual

def parseValue : Nat → List Char → Option (Json × List Char)
  | 0, _ => none
  | fuel + 1, input =>
    if charAt (skipWs input) 0 = 'n' then
      if (skipWs input).take 4 = ['n', 'u', 'l', 'l'] then
        some (.null, (skipWs input).drop 4)
      else none
    else if charAt (skipWs input) 0 = 't' then
      if (skipWs input).take 4 = ['t', 'r', 'u', 'e'] then
        some (.bool true, (skipWs input).drop 4)
      else none
    else if charAt (skipWs input) 0 = 'f' then
      if (skipWs input).take 5 = ['f', 'a', 'l', 's', 'e'] then
        some (.bool false, (skipWs input).drop 5)
      else none
    else if charAt (skipWs input) 0 = '"' then
      match parseStrBody ((skipWs input).drop 1) with
      | some (s, r) => some (.str (String.mk s), r)
      | none => none
    else if charAt (skipWs input) 0 = '[' then
      if charAt (skipWs ((skipWs input).drop 1)) 0 = ']' then
        some (.arr [], (skipWs ((skipWs input).drop 1)).drop 1)
      else
        match parseElems fuel ((skipWs input).drop 1) with
        | some (xs, r) => some (.arr xs, r)
        | none => none
    else if charAt (skipWs input) 0 = '{' then
      if charAt (skipWs ((skipWs input).drop 1)) 0 = '}' then
        some (.obj [], (skipWs ((skipWs input).drop 1)).drop 1)
      else
        match parseMembers fuel [] ((skipWs input).drop 1) with
        | some (kvs, r) => some (.obj kvs, r)
        | none => none
    else if charAt (skipWs input) 0 = '-' ∨ (charAt (skipWs input) 0).isDigit then
      parseNum (skipWs input)
    else none

def parseElems : Nat → List Char → Option (List Json × List Char)
  | 0, _ => none
  | fuel + 1, input =>
    match parseValue fuel input with
    | none => none
    | some (v, r) =>
      if charAt (skipWs r) 0 = ',' then
        match parseElems fuel ((skipWs r).drop 1) with
        | some (vs, r2) => some (v :: vs, r2)
        | none => none
      else if charAt (skipWs r) 0 = ']' then some ([v], (skipWs r).drop 1)
      else none

def parseMembers : Nat → List (String × Json) → List Char →
    Option (List (String × Json) × List Char)
  | 0, _, _ => none
  | fuel + 1, acc, input =>
    if charAt (skipWs input) 0 = '"' then
      match parseStrBody ((skipWs input).drop 1) with
      | none => none
      | some (k, r) =>
        if charAt (skipWs r) 0 = ':' then
          match parseValue fuel ((skipWs r).drop 1) with
          | none => none
          | some (v, r2) =>
            if charAt (skipWs r2) 0 = ',' then
              parseMembers fuel (mapInsert (String.mk k) v acc) ((skipWs r2).drop 1)
            else if charAt (skipWs r2) 0 = '}' then
              some (mapInsert (String.mk k) v acc, (skipWs r2).drop 1)
            else none
        else none
    else none

end

/-- Model of `serde_json::from_str` at the `Value` level: parse one
JSON value and require only trailing whitespace after it. -/
def jsonFromStr (s : String) : Option Json :=
  match parseValue (s.data.length + 1) s.data with
  | some (j, rest) => if skipWs rest = [] then some j else none
  | none => none

/-! ## Parser fuel accounting -/

mutual

def fuelFor : Json → Nat
  | .null => 1
  | .bool _ => 1
  | .num _ => 1
  | .str _ => 1
  | .arr xs => 1 + fuelElems xs
  | .obj kvs => 1 + fuelMembers kvs

def fuelElems : List Json → Nat
  | [] => 0
  | x :: xs => 1 + max (fuelFor x) (fuelElems xs)

def fuelMembers : List (String × Json) → Nat
  | [] => 0
  | (_, v) :: rest => 1 + max (fuelFor v) (fuelMembers rest)

end

/-! ## Printer and parser agree on printed output -/

theorem strMk_data (s : String) : String.mk s.data = s := by
  cases s
  rfl

theorem charAt_cons_zero (c : Char) (l : List Char) : charAt (c :: l) 0 = c := by
  simp [charAt]

theorem skipWs_cons_of (c : Char) (l : List Char) (h : isWsA c = false) :
    skipWs (c :: l) = c :: l := by
  simp [skipWs, List.dropWhile_cons, h]

theorem hexVal_hexDig (d : Nat) (h : d < 16) : hexVal (hexDig d) = some d := by
  interval_cases d <;> decide

theorem parseStrBody_cons (c : Char) (l : List Char) :
    parseStrBody (c :: l) =
      (if c = '"' then some ([], l)
      else if c = '\\' then
        match parseEsc l with
        | some (e, k) =>
          match parseStrBody (l.drop k) with
          | some (s, r) => some (e :: s, r)
          | none => none
        | none => none
      else if 0x20 ≤ c.toNat then
        match parseStrBody l with
        | some (s, r) => some (c :: s, r)
        | none => none
      else none) := by
  rw [parseStrBody]

theorem parseStrBody_print (cs rest : List Char) :
    parseStrBody (printStrBody cs ++ rest) = some (cs, rest) := by
  induction cs generalizing rest with
  | nil =>
    show parseStrBody ('"' :: rest) = some ([], rest)
    rw [parseStrBody_cons, if_pos rfl]
  | cons c cs ih =>
    show parseStrBody ((escChar c ++ printStrBody cs) ++ rest) = some (c :: cs, rest)
    rw [List.append_assoc]
    unfold escChar
    by_cases h1 : c = '"'
    · subst h1
      rw [if_pos rfl]
      rw [show (['\\', '"'] : List Char) ++ (printStrBody cs ++ rest) =
        '\\' :: '"' :: (printStrBody cs ++ rest) by rfl]
      rw [parseStrBody_cons]
      simp only [if_neg (by decide : ¬('\\' : Char) = '"'), if_pos rfl]
      have hesc : parseEsc ('"' :: (printStrBody cs ++ rest)) = some ('"', 1) := by
        unfold parseEsc
        simp [charAt_cons_zero]
      rw [hesc]
      simp only [List.drop_one, List.tail_cons]
      rw [ih rest]
      simp
    · by_cases h2 : c = '\\'
      · subst h2
        rw [if_neg h1, if_pos rfl]
        rw [show (['\\', '\\'] : List Char) ++ (printStrBody cs ++ rest) =
          '\\' :: '\\' :: (printStrBody cs ++ rest) by rfl]
        rw [parseStrBody_cons]
        simp only [if_neg (by decide : ¬('\\' : Char) = '"'), if_pos rfl]
        have hesc : parseEsc ('\\' :: (printStrBody cs ++ rest)) = some ('\\', 1) := by
          unfold parseEsc
          simp [charAt_cons_zero]
        rw [hesc]
        simp only [List.drop_one, List.tail_cons]
        rw [ih rest]
        simp
      · by_cases h3 : 0x20 ≤ c.toNat
        · rw [if_neg h1, if_neg h2, if_pos h3]
          rw [show ([c] : List Char) ++ (printStrBody cs ++ rest) =
            c :: (printStrBody cs ++ rest) by rfl]
          rw [parseStrBody_cons, if_neg h1, if_neg h2, if_pos h3, ih rest]
        · -- control character: short escapes or `\u00XX`
          have hval : c.toNat < 0x20 := by omega
          by_cases h4 : c.toNat = 8
          · rw [if_neg h1, if_neg h2, if_neg h3, if_pos h4]
            rw [show (['\\', 'b'] : List Char) ++ (printStrBody cs ++ rest) =
              '\\' :: 'b' :: (printStrBody cs ++ rest) by rfl]
            rw [parseStrBody_cons]
            simp only [if_neg (by decide : ¬('\\' : Char) = '"'), if_pos rfl]
            have hesc : parseEsc ('b' :: (printStrBody cs ++ rest)) =
                some (Char.ofNat 8, 1) := by
              unfold parseEsc
              simp [charAt_cons_zero]
            rw [hesc]
            have hc : Char.ofNat 8 = c := by
              have := mkChar_toNat c
              rw [h4] at this
              exact this
            simp only [List.drop_one, List.tail_cons]
            rw [ih rest, hc]
            simp
          · by_cases h5 : c.toNat = 9
            · rw [if_neg h1, if_neg h2, if_neg h3, if_neg h4, if_pos h5]
              rw [show (['\\', 't'] : List Char) ++ (printStrBody cs ++ rest) =
                '\\' :: 't' :: (printStrBody cs ++ rest) by rfl]
              rw [parseStrBody_cons]
              simp only [if_neg (by decide : ¬('\\' : Char) = '"'), if_pos rfl]
              have hesc : parseEsc ('t' :: (printStrBody cs ++ rest)) =
                  some (Char.ofNat 9, 1) := by
                unfold parseEsc
                simp [charAt_cons_zero]
              rw [hesc]
              have hc : Char.ofNat 9 = c := by
                have := mkChar_toNat c
                rw [h5] at this
                exact this
              simp only [List.drop_one, List.tail_cons]
              rw [ih rest, hc]
              simp
            · by_cases h6 : c.toNat = 10
              · rw [if_neg h1, if_neg h2, if_neg h3, if_neg h4, if_neg h5, if_pos h6]
                rw [show (['\\', 'n'] : List Char) ++ (printStrBody cs ++ rest) =
                  '\\' :: 'n' :: (printStrBody cs ++ rest) by rfl]
                rw [parseStrBody_cons]
                simp only [if_neg (by decide : ¬('\\' : Char) = '"'), if_pos rfl]
                have hesc : parseEsc ('n' :: (printStrBody cs ++ rest)) =
                    some ('\n', 1) := by
                  unfold parseEsc
                  simp [charAt_cons_zero]
                rw [hesc]
                have hc : ('\n' : Char) = c := by
                  have := mkChar_toNat c
                  rw [h6] at this
                  exact this
                simp only [List.drop_one, List.tail_cons]
                rw [ih rest, hc]
                simp
              · by_cases h7 : c.toNat = 12
                · rw [if_neg h1, if_neg h2, if_neg h3, if_neg h4, if_neg h5, if_neg h6,
                    if_pos h7]
                  rw [show (['\\', 'f'] : List Char) ++ (printStrBody cs ++ rest) =
                    '\\' :: 'f' :: (printStrBody cs ++ rest) by rfl]
                  rw [parseStrBody_cons]
                  simp only [if_neg (by decide : ¬('\\' : Char) = '"'), if_pos rfl]
                  have hesc : parseEsc ('f' :: (printStrBody cs ++ rest)) =
                      some (Char.ofNat 12, 1) := by
                    unfold parseEsc
                    simp [charAt_cons_zero]
                  rw [hesc]
                  have hc : Char.ofNat 12 = c := by
                    have := mkChar_toNat c
                    rw [h7] at this
                    exact this
                  simp only [List.drop_one, List.tail_cons]
                  rw [ih rest, hc]
                  simp
                · by_cases h8 : c.toNat = 13
                  · rw [if_neg h1, if_neg h2, if_neg h3, if_neg h4, if_neg h5, if_neg h6,
                      if_neg h7, if_pos h8]
                    rw [show (['\\', 'r'] : List Char) ++ (printStrBody cs ++ rest) =
                      '\\' :: 'r' :: (printStrBody cs ++ rest) by rfl]
                    rw [parseStrBody_cons]
                    simp only [if_neg (by decide : ¬('\\' : Char) = '"'), if_pos rfl]
                    have hesc : parseEsc ('r' :: (printStrBody cs ++ rest)) =
                        some ('\r', 1) := by
                      unfold parseEsc
                      simp [charAt_cons_zero]
                    rw [hesc]
                    have hc : ('\r' : Char) = c := by
                      have := mkChar_toNat c
                      rw [h8] at this
                      exact this
                    simp only [List.drop_one, List.tail_cons]
                    rw [ih rest, hc]
                    simp
                  · rw [if_neg h1, if_neg h2, if_neg h3, if_neg h4, if_neg h5, if_neg h6,
                      if_neg h7, if_neg h8]
                    rw [show (['\\', 'u', '0', '0', hexDig (c.toNat / 16),
                        hexDig (c.toNat % 16)] : List Char) ++ (printStrBody cs ++ rest) =
                      '\\' :: 'u' :: '0' :: '0' :: hexDig (c.toNat / 16) ::
                        hexDig (c.toNat % 16) :: (printStrBody cs ++ rest) by rfl]
                    rw [parseStrBody_cons]
                    simp only [if_neg (by decide : ¬('\\' : Char) = '"'), if_pos rfl]
                    have hhi : hexVal (hexDig (c.toNat / 16)) = some (c.toNat / 16) :=
                      hexVal_hexDig _ (by omega)
                    have hlo : hexVal (hexDig (c.toNat % 16)) = some (c.toNat % 16) :=
                      hexVal_hexDig _ (by omega)
                    have hesc : parseEsc ('u' :: '0' :: '0' :: hexDig (c.toNat / 16) ::
                        hexDig (c.toNat % 16) :: (printStrBody cs ++ rest)) =
                        some (c, 5) := by
                      unfold parseEsc
                      rw [show charAt ('u' :: '0' :: '0' :: hexDig (c.toNat / 16) ::
                        hexDig (c.toNat % 16) :: (printStrBody cs ++ rest)) 0 = 'u' from rfl]
                      rw [if_neg (by decide : ¬('u' : Char) = '"'),
                        if_neg (by decide : ¬('u' : Char) = '\\'),
                        if_neg (by decide : ¬('u' : Char) = '/'),
                        if_neg (by decide : ¬('u' : Char) = 'b'),
                        if_neg (by decide : ¬('u' : Char) = 'f'),
                        if_neg (by decide : ¬('u' : Char) = 'n'),
                        if_neg (by decide : ¬('u' : Char) = 'r'),
                        if_neg (by decide : ¬('u' : Char) = 't'),
                        if_pos (rfl : ('u' : Char) = 'u')]
                      rw [show charAt ('u' :: '0' :: '0' :: hexDig (c.toNat / 16) ::
                        hexDig (c.toNat % 16) :: (printStrBody cs ++ rest)) 1 = '0' from rfl]
                      rw [show charAt ('u' :: '0' :: '0' :: hexDig (c.toNat / 16) ::
                        hexDig (c.toNat % 16) :: (printStrBody cs ++ rest)) 2 = '0' from rfl]
                      rw [show charAt ('u' :: '0' :: '0' :: hexDig (c.toNat / 16) ::
                        hexDig (c.toNat % 16) :: (printStrBody cs ++ rest)) 3 =
                        hexDig (c.toNat / 16) from rfl]
                      rw [show charAt ('u' :: '0' :: '0' :: hexDig (c.toNat / 16) ::
                        hexDig (c.toNat % 16) :: (printStrBody cs ++ rest)) 4 =
                        hexDig (c.toNat % 16) from rfl]
                      rw [show hexVal '0' = some 0 from by decide, hhi, hlo]
                      have hn : ((0 * 16 + 0) * 16 + c.toNat / 16) * 16 + c.toNat % 16 =
                          c.toNat := by omega
                      simp only [hn]
                      rw [if_pos (by omega : c.toNat < 0xD800 ∨ 0xE000 ≤ c.toNat),
                        mkChar_toNat]
                    rw [hesc]
                    simp [ih]

/-- What may legally follow a printed number so that the maximal-digit
scan stops exactly at the value boundary: end of input, or a character
that is neither a digit nor `.`/`e`/`E`.  Every continuation produced
by the printer (`,`, `]`, `}`, end) satisfies this. -/
def boundary : List Char → Prop
  | [] => True
  | c :: _ => c.isDigit = false ∧ c ≠ '.' ∧ c ≠ 'e' ∧ c ≠ 'E'

theorem takeWhile_append_all (p : Char → Bool) (xs ys : List Char)
    (hx : ∀ c ∈ xs, p c = true)
    (hy : ∀ c, ys.head? = some c → p c = false) :
    (xs ++ ys).takeWhile p = xs ∧ (xs ++ ys).dropWhile p = ys := by
  induction xs with
  | nil =>
    simp only [List.nil_append]
    cases ys with
    | nil => simp
    | cons c l =>
      have hc := hy c (by simp)
      simp [List.takeWhile_cons, List.dropWhile_cons, hc]
  | cons x xs ih =>
    have hpx : p x = true := hx x (by simp)
    have ⟨iht, ihd⟩ := ih (fun c hc => hx c (by simp [hc]))
    simp [List.takeWhile_cons, List.dropWhile_cons, hpx, iht, ihd]

theorem digitChar_ne_zeroChar (n : Nat) (h1 : 1 ≤ n) (h2 : n < 10) :
    digitChar n ≠ '0' := by
  intro hcontra
  have ht := digitChar_toNat n h2
  rw [hcontra] at ht
  have h0 : ('0' : Char).toNat = 48 := by decide
  omega

theorem natDigits_head_ne_zero (n : Nat) (h : 1 ≤ n) :
    (natDigits n).head? ≠ some '0' := by
  induction n using Nat.strong_induction_on with
  | _ n ih =>
    rw [natDigits]
    by_cases hlt : n < 10
    · simp only [hlt, dif_pos, List.head?_cons]
      intro hcontra
      simp at hcontra
      exact digitChar_ne_zeroChar n h hlt hcontra
    · simp only [hlt, dif_neg, not_false_iff]
      rw [List.head?_append_of_ne_nil _ (natDigits_ne_nil (n / 10))]
      exact ih (n / 10) (Nat.div_lt_self (by omega) (by omega)) (by omega)

theorem parseNumNonNeg_natDigits (n : Nat) (rest : List Char) (hb : boundary rest) :
    parseNumNonNeg (natDigits n ++ rest) = some (n, rest) := by
  have hy : ∀ c, rest.head? = some c → c.isDigit = false := by
    cases rest with
    | nil => intro c hc; simp at hc
    | cons c l =>
      intro d hd
      simp at hd
      subst hd
      exact hb.1
  have ⟨ht, hd⟩ := takeWhile_append_all Char.isDigit (natDigits n) rest
    (natDigits_all_digit n) hy
  unfold parseNumNonNeg
  rw [ht, hd]
  rw [if_neg (by simp [natDigits_ne_nil n])]
  have hlead : ¬((natDigits n).length > 1 ∧ (natDigits n).head? = some '0') := by
    intro ⟨hlen, hhead⟩
    by_cases hn : 1 ≤ n
    · exact natDigits_head_ne_zero n hn hhead
    · have hn0 : n = 0 := by omega
      subst hn0
      rw [natDigits] at hlen
      simp at hlen
  rw [if_neg hlead]
  have hdot : ¬(charAt rest 0 = '.' ∨ charAt rest 0 = 'e' ∨ charAt rest 0 = 'E') := by
    cases rest with
    | nil =>
      intro hcontra
      rcases hcontra with h | h | h <;> exact absurd h (by decide)
    | cons c l =>
      simp only [charAt_cons_zero]
      intro hcontra
      rcases hcontra with h | h | h
      · exact hb.2.1 h
      · exact hb.2.2.1 h
      · exact hb.2.2.2 h
  rw [if_neg hdot, digitsVal_natDigits]

theorem digit_head_facts (c : Char) (h : c.isDigit = true) :
    c ≠ '-' ∧ c ≠ 'n' ∧ c ≠ 't' ∧ c ≠ 'f' ∧ c ≠ '"' ∧ c ≠ '[' ∧ c ≠ '{' ∧
    isWsA c = false ∧ c ≠ ']' ∧ c ≠ '}' := by
  refine ⟨?_, ?_, ?_, ?_, ?_, ?_, ?_, ?_, ?_, ?_⟩ <;>
    first
    | (intro hc; subst hc; exact absurd h (by decide))
    | (cases hw : isWsA c with
       | false => rfl
       | true =>
         exfalso
         simp only [isWsA, Bool.or_eq_true, decide_eq_true_eq] at hw
         rcases hw with ((hc | hc) | hc) | hc <;> (subst hc; exact absurd h (by decide)))

theorem parseNum_printInt (n : Int) (rest : List Char) (hb : boundary rest)
    (hlo : -(2 ^ 63) ≤ n) (hhi : n < 2 ^ 64) :
    parseNum (printInt n ++ rest) = some (.num n, rest) := by
  unfold printInt
  by_cases hneg : n < 0
  · rw [if_pos hneg]
    unfold parseNum
    rw [List.cons_append, charAt_cons_zero, if_pos rfl]
    simp only [List.drop_one, List.tail_cons]
    rw [parseNumNonNeg_natDigits n.natAbs rest hb]
    dsimp only
    rw [if_pos (by omega : n.natAbs ≤ 2 ^ 63)]
    have hval : (-(n.natAbs : Int)) = n := by omega
    rw [hval]
  · rw [if_neg hneg]
    unfold parseNum
    have hhead : ∃ c l, natDigits n.natAbs ++ rest = c :: l ∧ c.isDigit = true := by
      cases hnd : natDigits n.natAbs with
      | nil => exact absurd hnd (natDigits_ne_nil _)
      | cons c l =>
        refine ⟨c, l ++ rest, by simp, ?_⟩
        exact natDigits_all_digit n.natAbs c (by rw [hnd]; simp)
    obtain ⟨c, l, heq, hdig⟩ := hhead
    rw [heq, charAt_cons_zero, if_neg (digit_head_facts c hdig).1, ← heq]
    rw [parseNumNonNeg_natDigits n.natAbs rest hb]
    dsimp only
    rw [if_pos (by omega : n.natAbs < 2 ^ 64)]
    have hval : ((n.natAbs : Int)) = n := by omega
    rw [hval]

/-- Every printed JSON value starts with a character that is not
whitespace and not a closing delimiter or separator. -/
theorem printJson_cons (j : Json) :
    ∃ c cs, printJson j = c :: cs ∧ isWsA c = false ∧ c ≠ ']' ∧ c ≠ '}' ∧
      c ≠ ',' ∧ c ≠ ':' := by
  match j with
  | .null => exact ⟨'n', _, rfl, by decide, by decide, by decide, by decide, by decide⟩
  | .bool true => exact ⟨'t', _, rfl, by decide, by decide, by decide, by decide, by decide⟩
  | .bool false => exact ⟨'f', _, rfl, by decide, by decide, by decide, by decide, by decide⟩
  | .str s => exact ⟨'"', _, rfl, by decide, by decide, by decide, by decide, by decide⟩
  | .arr xs => exact ⟨'[', _, rfl, by decide, by decide, by decide, by decide, by decide⟩
  | .obj kvs => exact ⟨'{', _, rfl, by decide, by decide, by decide, by decide, by decide⟩
  | .num n =>
    show ∃ c cs, printInt n = c :: cs ∧ _
    unfold printInt
    by_cases hneg : n < 0
    · rw [if_pos hneg]
      exact ⟨'-', _, rfl, by decide, by decide, by decide, by decide, by decide⟩
    · rw [if_neg hneg]
      cases hnd : natDigits n.natAbs with
      | nil => exact absurd hnd (natDigits_ne_nil _)
      | cons c l =>
        have hdig : c.isDigit = true := natDigits_all_digit n.natAbs c (by rw [hnd]; simp)
        have hf := digit_head_facts c hdig
        exact ⟨c, l, rfl, hf.2.2.2.2.2.2.2.1, hf.2.2.2.2.2.2.2.2.1, hf.2.2.2.2.2.2.2.2.2,
          by simp only [Char.isDigit, decide_eq_true_eq] at hdig; intro hc; subst hc;
             revert hdig; decide,
          by simp only [Char.isDigit, decide_eq_true_eq] at hdig; intro hc; subst hc;
             revert hdig; decide⟩

theorem printJson_ne_nil (j : Json) : printJson j ≠ [] := by
  obtain ⟨c, cs, heq, _⟩ := printJson_cons j
  rw [heq]
  simp

/-- Induction over `Json` with inductive hypotheses for the members of
arrays and objects. -/
theorem jsonInduction {motive : Json → Prop}
    (hnull : motive .null) (hbool : ∀ b, motive (.bool b))
    (hnum : ∀ n, motive (.num n)) (hstr : ∀ s, motive (.str s))
    (harr : ∀ xs, (∀ x ∈ xs, motive x) → motive (.arr xs))
    (hobj : ∀ kvs, (∀ kv ∈ kvs, motive kv.2) → motive (.obj kvs)) :
    ∀ j, motive j
  | .null => hnull
  | .bool b => hbool b
  | .num n => hnum n
  | .str s => hstr s
  | .arr xs => harr xs (fun x hx =>
      jsonInduction hnull hbool hnum hstr harr hobj x)
  | .obj kvs => hobj kvs (fun kv hkv =>
      jsonInduction hnull hbool hnum hstr harr hobj kv.2)
termination_by j => sizeOf j
decreasing_by
  · have := List.sizeOf_lt_of_mem hx
    simp only [Json.arr.sizeOf_spec]
    omega
  · have h1 := List.sizeOf_lt_of_mem hkv
    obtain ⟨a, b⟩ := kv
    simp only [Json.obj.sizeOf_spec, Prod.mk.sizeOf_spec] at *
    omega

/-- Round-trip property of a single JSON value: parsing its printed
form (with enough fuel and a value boundary after it) succeeds and
yields its canonical form. -/
def valueRT (j : Json) : Prop :=
  jsonWf j = true → ∀ fuel rest, fuelFor j ≤ fuel → boundary rest →
    parseValue fuel (printJson j ++ rest) = some (canon j, rest)

theorem parseElems_print (xs : List Json) :
    ∀ x, (∀ y ∈ x :: xs, valueRT y) →
    jsonWfList (x :: xs) = true →
    ∀ fuel rest, fuelElems (x :: xs) ≤ fuel → boundary rest →
      parseElems fuel ((printJson x ++ printArrRest xs) ++ rest) =
        some (canonList (x :: xs), rest) := by
  induction xs with
  | nil =>
    intro x IH hwf fuel rest hf hb
    rw [fuelElems, fuelElems] at hf
    cases fuel with
    | zero => omega
    | succ f =>
      rw [parseElems]
      rw [printArrRest, List.append_assoc, List.singleton_append]
      have hwfx : jsonWf x = true := by
        rw [jsonWfList] at hwf
        exact (Bool.and_eq_true_iff.mp hwf).1
      rw [IH x (by simp) hwfx f (']' :: rest) (by omega)
        ⟨by decide, by decide, by decide, by decide⟩]
      dsimp only
      rw [skipWs_cons_of _ _ (by decide), charAt_cons_zero,
        if_neg (by decide : ¬(']' : Char) = ','), if_pos rfl]
      rw [canonList, canonList]
      simp
  | cons y ys ih =>
    intro x IH hwf fuel rest hf hb
    rw [fuelElems] at hf
    cases fuel with
    | zero => omega
    | succ f =>
      rw [parseElems]
      rw [printArrRest]
      rw [show (printJson x ++ ',' :: (printJson y ++ printArrRest ys)) ++ rest =
        printJson x ++ (',' :: ((printJson y ++ printArrRest ys) ++ rest)) by
          simp]
      have hwfx : jsonWf x = true := by
        rw [jsonWfList] at hwf
        exact (Bool.and_eq_true_iff.mp hwf).1
      have hwfrest : jsonWfList (y :: ys) = true := by
        rw [jsonWfList] at hwf
        exact (Bool.and_eq_true_iff.mp hwf).2
      rw [IH x (by simp) hwfx f (',' :: ((printJson y ++ printArrRest ys) ++ rest))
        (by omega) ⟨by decide, by decide, by decide, by decide⟩]
      dsimp only
      rw [skipWs_cons_of _ _ (by decide), charAt_cons_zero, if_pos rfl]
      simp only [List.drop_one, List.tail_cons]
      rw [ih y (fun z hz => IH z (by simp at hz ⊢; tauto)) hwfrest f rest
        (by omega) hb]
      dsimp only
      rw [canonList, canonList]
      rw [canonList]

theorem parseMembers_print (kvs : List (String × Json)) :
    ∀ (k : String) (v : Json), (∀ kv ∈ (k, v) :: kvs, valueRT kv.2) →
    jsonWfMembers ((k, v) :: kvs) = true →
    ∀ fuel acc rest, fuelMembers ((k, v) :: kvs) ≤ fuel → boundary rest →
      parseMembers fuel acc ((printStr k ++ ':' :: (printJson v ++ printObjRest kvs))
          ++ rest) =
        some (canonInto acc ((k, v) :: kvs), rest) := by
  induction kvs with
  | nil =>
    intro k v IH hwf fuel acc rest hf hb
    rw [fuelMembers] at hf
    cases fuel with
    | zero => omega
    | succ f =>
      rw [parseMembers]
      have hshape : (printStr k ++ ':' :: (printJson v ++ printObjRest [])) ++ rest =
          '"' :: (printStrBody k.data ++ (':' :: (printJson v ++ ('}' :: rest)))) := by
        rw [printObjRest]
        unfold printStr
        simp
      rw [hshape]
      rw [skipWs_cons_of _ _ (by decide), charAt_cons_zero, if_pos rfl]
      simp only [List.drop_one, List.tail_cons]
      rw [parseStrBody_print]
      dsimp only
      rw [skipWs_cons_of _ _ (by decide), charAt_cons_zero, if_pos rfl]
      simp only [List.drop_one, List.tail_cons]
      have hwfv : jsonWf v = true := by
        rw [jsonWfMembers] at hwf
        exact (Bool.and_eq_true_iff.mp hwf).1
      have IHv : valueRT v := IH (k, v) (by simp)
      have hvrt := IHv hwfv f ('}' :: rest) (by omega)
        ⟨by decide, by decide, by decide, by decide⟩
      rw [hvrt]
      dsimp only
      rw [skipWs_cons_of _ _ (by decide), charAt_cons_zero,
        if_neg (by decide : ¬('}' : Char) = ','), if_pos rfl]
      rw [canonInto, canonInto, strMk_data]
      simp
  | cons kv2 kvs2 ih =>
    intro k v IH hwf fuel acc rest hf hb
    obtain ⟨k2, v2⟩ := kv2
    rw [fuelMembers] at hf
    cases fuel with
    | zero => omega
    | succ f =>
      rw [parseMembers]
      have hshape : (printStr k ++ ':' :: (printJson v ++ printObjRest ((k2, v2) :: kvs2)))
          ++ rest =
          '"' :: (printStrBody k.data ++ (':' :: (printJson v ++ (',' ::
            ((printStr k2 ++ ':' :: (printJson v2 ++ printObjRest kvs2)) ++ rest))))) := by
        rw [printObjRest]
        unfold printStr
        simp
      rw [hshape]
      rw [skipWs_cons_of _ _ (by decide), charAt_cons_zero, if_pos rfl]
      simp only [List.drop_one, List.tail_cons]
      rw [parseStrBody_print]
      dsimp only
      rw [skipWs_cons_of _ _ (by decide), charAt_cons_zero, if_pos rfl]
      simp only [List.drop_one, List.tail_cons]
      have hwfv : jsonWf v = true := by
        rw [jsonWfMembers] at hwf
        exact (Bool.and_eq_true_iff.mp hwf).1
      have hwfrest : jsonWfMembers ((k2, v2) :: kvs2) = true := by
        rw [jsonWfMembers] at hwf
        exact (Bool.and_eq_true_iff.mp hwf).2
      have IHv : valueRT v := IH (k, v) (by simp)
      have hvrt := IHv hwfv f
        (',' :: ((printStr k2 ++ ':' :: (printJson v2 ++ printObjRest kvs2)) ++ rest))
        (by omega) ⟨by decide, by decide, by decide, by decide⟩
      rw [hvrt]
      dsimp only
      rw [skipWs_cons_of _ _ (by decide), charAt_cons_zero, if_pos rfl]
      simp only [List.drop_one, List.tail_cons]
      rw [ih k2 v2 (fun z hz => IH z (by simp at hz ⊢; tauto)) hwfrest f
        (mapInsert (String.mk k.data) (canon v) acc) rest (by omega) hb]
      rw [strMk_data]
      conv_rhs => rw [canonInto]

theorem printInt_head (n : Int) :
    ∃ c cs, printInt n = c :: cs ∧ (c = '-' ∨ c.isDigit = true) := by
  unfold printInt
  by_cases hneg : n < 0
  · rw [if_pos hneg]
    exact ⟨'-', _, rfl, Or.inl rfl⟩
  · rw [if_neg hneg]
    cases hnd : natDigits n.natAbs with
    | nil => exact absurd hnd (natDigits_ne_nil _)
    | cons c l =>
      exact ⟨c, l, rfl, Or.inr (natDigits_all_digit n.natAbs c (by rw [hnd]; simp))⟩

theorem parseValue_print : ∀ j, valueRT j := by
  apply jsonInduction
  case hnull =>
    intro _ fuel rest hf hb
    rw [fuelFor] at hf
    cases fuel with
    | zero => omega
    | succ f =>
      rw [printJson, parseValue]
      rw [show (['n', 'u', 'l', 'l'] : List Char) ++ rest =
        'n' :: 'u' :: 'l' :: 'l' :: rest from rfl]
      rw [skipWs_cons_of _ _ (by decide), charAt_cons_zero, if_pos rfl]
      rw [if_pos (show ('n' :: 'u' :: 'l' :: 'l' :: rest).take 4 =
        ['n', 'u', 'l', 'l'] from rfl)]
      rw [show ('n' :: 'u' :: 'l' :: 'l' :: rest).drop 4 = rest from rfl, canon]
  case hbool =>
    intro b _ fuel rest hf hb
    rw [fuelFor] at hf
    cases fuel with
    | zero => omega
    | succ f =>
      cases b with
      | true =>
        rw [printJson, parseValue]
        rw [show (['t', 'r', 'u', 'e'] : List Char) ++ rest =
          't' :: 'r' :: 'u' :: 'e' :: rest from rfl]
        rw [skipWs_cons_of _ _ (by decide), charAt_cons_zero,
          if_neg (by decide : ¬('t' : Char) = 'n'), if_pos rfl]
        rw [if_pos (show ('t' :: 'r' :: 'u' :: 'e' :: rest).take 4 =
          ['t', 'r', 'u', 'e'] from rfl)]
        rw [show ('t' :: 'r' :: 'u' :: 'e' :: rest).drop 4 = rest from rfl, canon]
      | false =>
        rw [printJson, parseValue]
        rw [show (['f', 'a', 'l', 's', 'e'] : List Char) ++ rest =
          'f' :: 'a' :: 'l' :: 's' :: 'e' :: rest from rfl]
        rw [skipWs_cons_of _ _ (by decide), charAt_cons_zero,
          if_neg (by decide : ¬('f' : Char) = 'n'),
          if_neg (by decide : ¬('f' : Char) = 't'), if_pos rfl]
        rw [if_pos (show ('f' :: 'a' :: 'l' :: 's' :: 'e' :: rest).take 5 =
          ['f', 'a', 'l', 's', 'e'] from rfl)]
        rw [show ('f' :: 'a' :: 'l' :: 's' :: 'e' :: rest).drop 5 = rest from rfl, canon]
  case hnum =>
    intro n hwf fuel rest hf hb
    rw [fuelFor] at hf
    simp only [jsonWf, Bool.and_eq_true, decide_eq_true_eq] at hwf
    cases fuel with
    | zero => omega
    | succ f =>
      obtain ⟨c, cs, heq, hc⟩ := printInt_head n
      have hfacts : c ≠ 'n' ∧ c ≠ 't' ∧ c ≠ 'f' ∧ c ≠ '"' ∧ c ≠ '[' ∧ c ≠ '{' ∧
          isWsA c = false := by
        rcases hc with hc | hc
        · subst hc
          exact ⟨by decide, by decide, by decide, by decide, by decide, by decide,
            by decide⟩
        · have hd := digit_head_facts c hc
          exact ⟨hd.2.1, hd.2.2.1, hd.2.2.2.1, hd.2.2.2.2.1, hd.2.2.2.2.2.1,
            hd.2.2.2.2.2.2.1, hd.2.2.2.2.2.2.2.1⟩
      rw [printJson, parseValue, heq, List.cons_append]
      rw [skipWs_cons_of _ _ hfacts.2.2.2.2.2.2, charAt_cons_zero]
      rw [if_neg hfacts.1, if_neg hfacts.2.1, if_neg hfacts.2.2.1,
        if_neg hfacts.2.2.2.1, if_neg hfacts.2.2.2.2.1, if_neg hfacts.2.2.2.2.2.1,
        if_pos hc]
      rw [← List.cons_append, ← heq]
      rw [parseNum_printInt n rest hb hwf.1 hwf.2, canon]
  case hstr =>
    intro s _ fuel rest hf hb
    rw [fuelFor] at hf
    cases fuel with
    | zero => omega
    | succ f =>
      rw [printJson, parseValue]
      unfold printStr
      rw [List.cons_append]
      rw [skipWs_cons_of _ _ (by decide), charAt_cons_zero,
        if_neg (by decide : ¬('"' : Char) = 'n'),
        if_neg (by decide : ¬('"' : Char) = 't'),
        if_neg (by decide : ¬('"' : Char) = 'f'), if_pos rfl]
      simp only [List.drop_one, List.tail_cons]
      rw [parseStrBody_print]
      dsimp only
      rw [strMk_data, canon]
  case harr =>
    intro xs ihmem hwf fuel rest hf hb
    rw [fuelFor] at hf
    rw [jsonWf] at hwf
    cases fuel with
    | zero => omega
    | succ f =>
      rw [printJson, parseValue, List.cons_append]
      rw [skipWs_cons_of _ _ (by decide), charAt_cons_zero,
        if_neg (by decide : ¬('[' : Char) = 'n'),
        if_neg (by decide : ¬('[' : Char) = 't'),
        if_neg (by decide : ¬('[' : Char) = 'f'),
        if_neg (by decide : ¬('[' : Char) = '"'), if_pos rfl]
      simp only [List.drop_one, List.tail_cons]
      cases xs with
      | nil =>
        rw [printArrBody, List.singleton_append]
        rw [skipWs_cons_of _ _ (by decide), charAt_cons_zero, if_pos rfl]
        rw [show (']' :: rest).tail = rest from rfl, canon, canonList]
      | cons x xs2 =>
        rw [printArrBody]
        obtain ⟨cx, csx, heqx, hnwx, hnbr, _, _, _⟩ := printJson_cons x
        have hshape : (printJson x ++ printArrRest xs2) ++ rest =
            cx :: ((csx ++ printArrRest xs2) ++ rest) := by
          rw [heqx]
          simp
        rw [hshape, skipWs_cons_of _ _ hnwx, charAt_cons_zero, if_neg hnbr, ← hshape]
        rw [parseElems_print xs2 x ihmem hwf f rest (by rw [fuelElems]; rw [fuelElems] at hf; omega) hb]
        dsimp only
        rw [canon]
  case hobj =>
    intro kvs ihmem hwf fuel rest hf hb
    rw [fuelFor] at hf
    rw [jsonWf] at hwf
    cases fuel with
    | zero => omega
    | succ f =>
      rw [printJson, parseValue, List.cons_append]
      rw [skipWs_cons_of _ _ (by decide), charAt_cons_zero,
        if_neg (by decide : ¬('{' : Char) = 'n'),
        if_neg (by decide : ¬('{' : Char) = 't'),
        if_neg (by decide : ¬('{' : Char) = 'f'),
        if_neg (by decide : ¬('{' : Char) = '"'),
        if_neg (by decide : ¬('{' : Char) = '['), if_pos rfl]
      simp only [List.drop_one, List.tail_cons]
      cases kvs with
      | nil =>
        rw [printObjBody, List.singleton_append]
        rw [skipWs_cons_of _ _ (by decide), charAt_cons_zero, if_pos rfl]
        rw [show ('}' :: rest).tail = rest from rfl, canon, canonInto]
      | cons kv kvs2 =>
        obtain ⟨k, v⟩ := kv
        rw [printObjBody]
        have hshape : (printStr k ++ ':' :: (printJson v ++ printObjRest kvs2)) ++ rest =
            '"' :: ((printStrBody k.data ++ ':' :: (printJson v ++ printObjRest kvs2))
              ++ rest) := by
          unfold printStr
          simp
        rw [hshape, skipWs_cons_of _ _ (by decide), charAt_cons_zero,
          if_neg (by decide : ¬('"' : Char) = '}'), ← hshape]
        rw [parseMembers_print kvs2 k v ihmem hwf f [] rest
          (by rw [fuelMembers]; rw [fuelMembers] at hf; omega) hb]
        dsimp only
        rw [canon]

theorem printArrRest_ne_nil (zs : List Json) : printArrRest zs ≠ [] := by
  cases zs <;> simp [printArrRest]

theorem printObjRest_ne_nil (zs : List (String × Json)) : printObjRest zs ≠ [] := by
  cases zs with
  | nil => simp [printObjRest]
  | cons kv rest =>
    obtain ⟨k, v⟩ := kv
    simp [printObjRest]

/-- The parser fuel needed for a printed value never exceeds its
printed length, so `jsonFromStr`'s fuel budget of `length + 1` always
suffices. -/
theorem fuelFor_le_printLen : ∀ j, fuelFor j ≤ (printJson j).length := by
  apply jsonInduction
  case hnull => rw [fuelFor, printJson]; simp
  case hbool =>
    intro b
    cases b <;> (rw [fuelFor, printJson]; simp)
  case hnum =>
    intro n
    rw [fuelFor, printJson]
    obtain ⟨c, cs, heq, _⟩ := printInt_head n
    rw [heq]
    simp
  case hstr =>
    intro s
    rw [fuelFor, printJson]
    unfold printStr
    simp
  case harr =>
    intro xs ihmem
    have hlist : ∀ zs, (∀ z ∈ zs, fuelFor z ≤ (printJson z).length) →
        fuelElems zs ≤ (printArrRest zs).length := by
      intro zs
      induction zs with
      | nil =>
        intro _
        rw [fuelElems, printArrRest]
        simp
      | cons y ys ihl =>
        intro hmem
        rw [fuelElems, printArrRest]
        have h1 := hmem y (by simp)
        have h2 := ihl (fun z hz => hmem z (by simp [hz]))
        simp only [List.length_cons, List.length_append]
        omega
    rw [fuelFor, printJson]
    simp only [List.length_cons]
    cases xs with
    | nil =>
      rw [fuelElems, printArrBody]
      simp
    | cons x xs2 =>
      rw [fuelElems, printArrBody]
      have h1 := ihmem x (by simp)
      have h2 := hlist xs2 (fun z hz => ihmem z (by simp [hz]))
      have h3 : 1 ≤ (printJson x).length :=
        List.length_pos.mpr (printJson_ne_nil x)
      have h4 : 1 ≤ (printArrRest xs2).length :=
        List.length_pos.mpr (printArrRest_ne_nil xs2)
      simp only [List.length_append]
      omega
  case hobj =>
    intro kvs ihmem
    have hlist : ∀ zs, (∀ z ∈ zs, fuelFor z.2 ≤ (printJson z.2).length) →
        fuelMembers zs ≤ (printObjRest zs).length := by
      intro zs
      induction zs with
      | nil =>
        intro _
        rw [fuelMembers, printObjRest]
        simp
      | cons kv ys ihl =>
        intro hmem
        obtain ⟨k2, v2⟩ := kv
        rw [fuelMembers, printObjRest]
        have h1 : fuelFor v2 ≤ (printJson v2).length := hmem (k2, v2) (by simp)
        have h2 := ihl (fun z hz => hmem z (by simp [hz]))
        simp only [List.length_cons, List.length_append]
        omega
    rw [fuelFor, printJson]
    simp only [List.length_cons]
    cases kvs with
    | nil =>
      rw [fuelMembers, printObjBody]
      simp
    | cons kv kvs2 =>
      obtain ⟨k, v⟩ := kv
      rw [fuelMembers, printObjBody]
      have h1 : fuelFor v ≤ (printJson v).length := ihmem (k, v) (by simp)
      have h2 := hlist kvs2 (fun z hz => ihmem z (by simp [hz]))
      have h4 : 1 ≤ (printObjRest kvs2).length :=
        List.length_pos.mpr (printObjRest_ne_nil kvs2)
      simp only [List.length_append, List.length_cons]
      omega

/-- Top-level JSON round trip: `from_str` of `to_string` of any
well-formed value yields its canonical form (for values already in
canonical form, the value itself). -/
theorem jsonFromStr_print (j : Json) (hwf : jsonWf j = true) :
    jsonFromStr (String.mk (printJson j)) = some (canon j) := by
  unfold jsonFromStr
  have hrt := parseValue_print j hwf ((printJson j).length + 1) []
    (by have := fuelFor_le_printLen j; omega) trivial
  rw [show printJson j ++ ([] : List Char) = printJson j by simp] at hrt
  rw [show (String.mk (printJson j)).data = printJson j from rfl, hrt]
  dsimp only
  rw [show skipWs ([] : List Char) = [] from rfl, if_pos rfl]

/-! ## JSON-RPC message types

Model of the `jsonrpc_core` crate types used by the transport
(`Call`, `Output`, `Params`, `Id`, `Version`, `Error`) together with
their serde serialization and untagged deserialization behaviour, as
described by the spec (sections 3 and 4.5). -/

inductive RpcId where
  | null
  | num (n : Nat)
  | str (s : String)

inductive Version where
  | v2

/-- `Params`: `None` serializes to JSON `null`; `Array`/`Map` carry
`serde_json` values. -/
inductive Params where
  | none
  | array (elems : List Json)
  | map (m : List (String × Json))

/-- `MethodCall { jsonrpc, method, params, id }`; `params` carries
`#[serde(skip_serializing_if = "Option::is_none")]`, `jsonrpc` does
not. -/
structure MethodCall where
  jsonrpc : Option Version
  method : String
  params : Option Params
  id : RpcId

structure Notification where
  jsonrpc : Option Version
  method : String
  params : Option Params

/-- Untagged `Call`: deserialization tries `MethodCall`, then
`Notification`, then `Invalid { id }` (with `id` defaulting to
`Id::Null`). -/
inductive Call where
  | methodCall (m : MethodCall)
  | notification (n : Notification)
  | invalid (id : RpcId)

/-- `Error { code, message, data }` with `ErrorCode` carried as its
`i64` code and `data` as `Option<Value>` behind a skip attribute. -/
structure RpcError where
  code : Int
  message : String
  data : Option Json

structure Success where
  jsonrpc : Option Version
  result : Json
  id : RpcId

structure Failure where
  jsonrpc : Option Version
  error : RpcError
  id : RpcId

/-- Untagged `Output`: deserialization tries `Success` (a `result`
field), then `Failure` (an `error` field). -/
inductive Output where
  | success (s : Success)
  | failure (f : Failure)

/-- Modelled from the spec: `ServerMessage` (defined in the
repository's `types.rs`, which is not part of the transport source) is
the tagged union over `Request(Call)` and `Response(Output)`. -/
inductive ServerMessage where
  | request (c : Call)
  | response (o : Output)

/-! ### Serialization (`serde_json::to_string` at the `Json` level) -/

def versionToJson : Version → Json
  | .v2 => .str "2.0"

def optVersionJson : Option Version → Json
  | Option.none => .null
  | Option.some v => versionToJson v

def idToJson : RpcId → Json
  | .null => .null
  | .num n => .num (n : Int)
  | .str s => .str s

def paramsToJson : Params → Json
  | .none => .null
  | .array xs => .arr xs
  | .map m => .obj m

def methodCallToJson (m : MethodCall) : Json :=
  .obj ([("jsonrpc", optVersionJson m.jsonrpc), ("method", .str m.method)] ++
    (match m.params with
     | Option.none => []
     | Option.some p => [("params", paramsToJson p)]) ++
    [("id", idToJson m.id)])

def notificationToJson (n : Notification) : Json :=
  .obj ([("jsonrpc", optVersionJson n.jsonrpc), ("method", .str n.method)] ++
    (match n.params with
     | Option.none => []
     | Option.some p => [("params", paramsToJson p)]))

def invalidToJson (id : RpcId) : Json := .obj [("id", idToJson id)]

def callToJson : Call → Json
  | .methodCall m => methodCallToJson m
  | .notification n => notificationToJson n
  | .invalid id => invalidToJson id

def errorToJson (e : RpcError) : Json :=
  .obj ([("code", .num e.code), ("message", .str e.message)] ++
    (match e.data with
     | Option.none => []
     | Option.some d => [("data", d)]))

def successToJson (s : Success) : Json :=
  .obj ((match s.jsonrpc with
     | Option.none => []
     | Option.some v => [("jsonrpc", versionToJson v)]) ++
    [("result", s.result), ("id", idToJson s.id)])

def failureToJson (f : Failure) : Json :=
  .obj ((match f.jsonrpc with
     | Option.none => []
     | Option.some v => [("jsonrpc", versionToJson v)]) ++
    [("error", errorToJson f.error), ("id", idToJson f.id)])

def outputToJson : Output → Json
  | .success s => successToJson s
  | .failure f => failureToJson f

def msgToJson : ServerMessage → Json
  | .request c => callToJson c
  | .response o => outputToJson o

def serializeMsg (m : ServerMessage) : String := String.mk (printJson (msgToJson m))

/-! ### Deserialization (serde untagged semantics at the `Json` level) -/

def asObj : Json → Option (List (String × Json))
  | .obj kvs => Option.some kvs
  | _ => Option.none

/-- `#[serde(deny_unknown_fields)]`: every present key must be a known
field name. -/
def keysAllowed (kvs : List (String × Json)) (allowed : List String) : Bool :=
  kvs.all (fun kv => allowed.contains kv.1)

def versionFromJson : Json → Option Version
  | .str s => if s = "2.0" then Option.some .v2 else Option.none
  | _ => Option.none

/-- A present `jsonrpc` field of type `Option<Version>`: JSON `null`
becomes `None`; anything else must parse as a `Version`. -/
def optVersionFromJson (j : Json) : Option (Option Version) :=
  match j with
  | .null => Option.some Option.none
  | _ => (versionFromJson j).map Option.some

def idFromJson : Json → Option RpcId
  | .null => Option.some .null
  | .num n => if 0 ≤ n ∧ n < 2 ^ 64 then Option.some (.num n.toNat) else Option.none
  | .str s => Option.some (.str s)
  | _ => Option.none

def paramsFromJson : Json → Option Params
  | .null => Option.some .none
  | .arr xs => Option.some (.array xs)
  | .obj kvs => Option.some (.map kvs)
  | _ => Option.none

/-- A present `params` field of type `Option<Params>`: serde resolves
the `Option` first, so JSON `null` becomes `None` — `Some(Params::None)`
is never produced by deserialization. -/
def optParamsFromJson (j : Json) : Option (Option Params) :=
  match j with
  | .null => Option.some Option.none
  | _ => (paramsFromJson j).map Option.some

/-- A field of type `Option<Value>` (never fails): absent or `null`
becomes `None`. -/
def optValueField (kvs : List (String × Json)) (name : String) : Option Json :=
  match lookupJ name kvs with
  | Option.none => Option.none
  | Option.some .null => Option.none
  | Option.some d => Option.some d

def methodCallFromJson (j : Json) : Option MethodCall :=
  match asObj j with
  | Option.none => Option.none
  | Option.some kvs =>
    match lookupJ "method" kvs, lookupJ "id" kvs with
    | Option.some (.str m), Option.some idj =>
      match idFromJson idj with
      | Option.none => Option.none
      | Option.some i =>
        match (match lookupJ "jsonrpc" kvs with
               | Option.none => Option.some Option.none
               | Option.some vj => optVersionFromJson vj) with
        | Option.none => Option.none
        | Option.some jr =>
          match (match lookupJ "params" kvs with
                 | Option.none => Option.some Option.none
                 | Option.some pj => optParamsFromJson pj) with
          | Option.none => Option.none
          | Option.some p =>
            if keysAllowed kvs ["jsonrpc", "method", "params", "id"] then
              Option.some ⟨jr, m, p, i⟩
            else Option.none
    | _, _ => Option.none

def notificationFromJson (j : Json) : Option Notification :=
  match asObj j with
  | Option.none => Option.none
  | Option.some kvs =>
    match lookupJ "method" kvs with
    | Option.some (.str m) =>
      match (match lookupJ "jsonrpc" kvs with
             | Option.none => Option.some Option.none
             | Option.some vj => optVersionFromJson vj) with
      | Option.none => Option.none
      | Option.some jr =>
        match (match lookupJ "params" kvs with
               | Option.none => Option.some Option.none
               | Option.some pj => optParamsFromJson pj) with
        | Option.none => Option.none
        | Option.some p =>
          if keysAllowed kvs ["jsonrpc", "method", "params"] then
            Option.some ⟨jr, m, p⟩
          else Option.none
    | _ => Option.none

def invalidFromJson (j : Json) : Option RpcId :=
  match asObj j with
  | Option.none => Option.none
  | Option.some kvs =>
    if keysAllowed kvs ["id"] then
      match lookupJ "id" kvs with
      | Option.none => Option.some .null
      | Option.some idj => idFromJson idj
    else Option.none

def callFromJson (j : Json) : Option Call :=
  match methodCallFromJson j with
  | Option.some m => Option.some (.methodCall m)
  | Option.none =>
    match notificationFromJson j with
    | Option.some n => Option.some (.notification n)
    | Option.none =>
      match invalidFromJson j with
      | Option.some i => Option.some (.invalid i)
      | Option.none => Option.none

def errorFromJson (j : Json) : Option RpcError :=
  match asObj j with
  | Option.none => Option.none
  | Option.some kvs =>
    match lookupJ "code" kvs, lookupJ "message" kvs with
    | Option.some (.num c), Option.some (.str m) =>
      if -(2 ^ 63 : Int) ≤ c ∧ c < 2 ^ 63 then
        Option.some ⟨c, m, optValueField kvs "data"⟩
      else Option.none
    | _, _ => Option.none

def successFromJson (j : Json) : Option Success :=
  match asObj j with
  | Option.none => Option.none
  | Option.some kvs =>
    match lookupJ "result" kvs, lookupJ "id" kvs with
    | Option.some r, Option.some idj =>
      match idFromJson idj with
      | Option.none => Option.none
      | Option.some i =>
        match (match lookupJ "jsonrpc" kvs with
               | Option.none => Option.some Option.none
               | Option.some vj => optVersionFromJson vj) with
        | Option.none => Option.none
        | Option.some jr =>
          if keysAllowed kvs ["jsonrpc", "result", "id"] then
            Option.some ⟨jr, r, i⟩
          else Option.none
    | _, _ => Option.none

def failureFromJson (j : Json) : Option Failure :=
  match asObj j with
  | Option.none => Option.none
  | Option.some kvs =>
    match lookupJ "error" kvs, lookupJ "id" kvs with
    | Option.some ej, Option.some idj =>
      match errorFromJson ej with
      | Option.none => Option.none
      | Option.some e =>
        match idFromJson idj with
        | Option.none => Option.none
        | Option.some i =>
          match (match lookupJ "jsonrpc" kvs with
                 | Option.none => Option.some Option.none
                 | Option.some vj => optVersionFromJson vj) with
          | Option.none => Option.none
          | Option.some jr =>
            if keysAllowed kvs ["jsonrpc", "error", "id"] then
              Option.some ⟨jr, e, i⟩
            else Option.none
    | _, _ => Option.none

def outputFromJson (j : Json) : Option Output :=
  match successFromJson j with
  | Option.some s => Option.some (.success s)
  | Option.none =>
    match failureFromJson j with
    | Option.some f => Option.some (.failure f)
    | Option.none => Option.none

/-- `serde_json::from_str::<Output>` as used at
`language_server_transport.rs:130`. -/
def outputFromStr (s : String) : Option Output :=
  (jsonFromStr s).bind outputFromJson

/-- `serde_json::from_str::<Call>` as used at
`language_server_transport.rs:134`. -/
def callFromStr (s : String) : Option Call :=
  (jsonFromStr s).bind callFromJson

/-- Classification of a decoded frame body
(`language_server_transport.rs:130-139`): try `Output` first, fall
back to `Call`, otherwise fail with the source's error message. -/
def classifyBody (msg : String) : Except String ServerMessage :=
  match outputFromStr msg with
  | Option.some o => .ok (.response o)
  | Option.none =>
    match callFromStr msg with
    | Option.some c => .ok (.request c)
    | Option.none => .error "Failed to parse language server message"

/-! ### Lookup and key-set lemmas for parsed (canonical) objects -/

theorem lookupJ_mapInsert (k kq : String) (v : Json) (m : List (String × Json)) :
    lookupJ kq (mapInsert k v m) =
      if k = kq then Option.some v else lookupJ kq m := by
  induction m with
  | nil => simp [mapInsert, lookupJ]
  | cons hd tl ih =>
    obtain ⟨k', v'⟩ := hd
    rw [mapInsert]
    by_cases h1 : strLt k k' = true
    · rw [if_pos h1, lookupJ]
    · rw [if_neg h1]
      by_cases h2 : k = k'
      · rw [if_pos h2, lookupJ]
        subst h2
        by_cases h3 : k = kq
        · rw [if_pos h3, if_pos h3]
        · rw [if_neg h3, if_neg h3, lookupJ, if_neg h3]
      · rw [if_neg h2, lookupJ]
        by_cases h3 : k' = kq
        · rw [if_pos h3, if_neg (fun hc => h2 (hc.trans h3.symm)), lookupJ, if_pos h3]
        · rw [if_neg h3, ih, lookupJ, if_neg h3]

/-- Lookup of the value the last occurrence of a key would leave in a
map built by successive inserts. -/
def lookupLast (k : String) : List (String × Json) → Option Json
  | [] => Option.none
  | (k', v') :: rest =>
    match lookupLast k rest with
    | Option.some v => Option.some v
    | Option.none => if k' = k then Option.some v' else Option.none

theorem lookupJ_canonInto (k : String) (acc kvs : List (String × Json)) :
    lookupJ k (canonInto acc kvs) =
      match lookupLast k kvs with
      | Option.some v => Option.some (canon v)
      | Option.none => lookupJ k acc := by
  induction kvs generalizing acc with
  | nil => rw [canonInto, lookupLast]
  | cons kv rest ih =>
    obtain ⟨k1, v1⟩ := kv
    rw [canonInto, ih, lookupLast]
    cases lookupLast k rest with
    | some v => rfl
    | none =>
      dsimp only
      rw [lookupJ_mapInsert]
      by_cases h : k1 = k
      · rw [if_pos h, if_pos h]
      · rw [if_neg h, if_neg h]

theorem keysAllowed_mapInsert (k : String) (v : Json) (m : List (String × Json))
    (allowed : List String) (hk : k ∈ allowed)
    (hm : keysAllowed m allowed = true) :
    keysAllowed (mapInsert k v m) allowed = true := by
  induction m with
  | nil =>
    rw [mapInsert]
    simp [keysAllowed, hk]
  | cons hd tl ih =>
    obtain ⟨k', v'⟩ := hd
    simp [keysAllowed] at hm
    rw [mapInsert]
    by_cases h1 : strLt k k' = true
    · rw [if_pos h1]
      simp [keysAllowed]
      exact ⟨hk, hm.1, hm.2⟩
    · rw [if_neg h1]
      by_cases h2 : k = k'
      · rw [if_pos h2]
        simp [keysAllowed]
        exact ⟨hk, hm.2⟩
      · rw [if_neg h2]
        have htl : keysAllowed tl allowed = true := by
          simp [keysAllowed]
          exact hm.2
        have hins := ih htl
        simp [keysAllowed] at hins ⊢
        exact ⟨hm.1, hins⟩

theorem keysAllowed_canonInto (acc kvs : List (String × Json)) (allowed : List String)
    (hkvs : ∀ kv ∈ kvs, kv.1 ∈ allowed)
    (hacc : keysAllowed acc allowed = true) :
    keysAllowed (canonInto acc kvs) allowed = true := by
  induction kvs generalizing acc with
  | nil => rw [canonInto]; exact hacc
  | cons kv rest ih =>
    obtain ⟨k1, v1⟩ := kv
    rw [canonInto]
    exact ih (mapInsert k1 (canon v1) acc) (fun z hz => hkvs z (by simp [hz]))
      (keysAllowed_mapInsert k1 (canon v1) acc allowed (hkvs (k1, v1) (by simp)) hacc)

/-! ### Validity of message values

These predicates identify the values on which serialization followed
by parsing is the identity: numbers within `i64`/`u64`, embedded
`serde_json` values already in `BTreeMap` canonical form, and no
`Some(Params::None)` / `Some(Value::Null)` optional fields (serde
collapses those to `None` on the way back — see the counterexample
theorems). -/

def jsonGood (j : Json) : Prop := jsonWf j = true ∧ canon j = j

def idValid : RpcId → Prop
  | .num n => n < 2 ^ 64
  | _ => True

def optParamsGood : Option Params → Prop
  | Option.none => True
  | Option.some .none => False
  | Option.some (.array xs) => jsonGood (.arr xs)
  | Option.some (.map m) => jsonGood (.obj m)

def errorValid (e : RpcError) : Prop :=
  -(2 ^ 63 : Int) ≤ e.code ∧ e.code < 2 ^ 63 ∧
  (match e.data with
   | Option.none => True
   | Option.some d => jsonGood d ∧ d ≠ .null)

def methodCallValid (m : MethodCall) : Prop := idValid m.id ∧ optParamsGood m.params

def notificationValid (n : Notification) : Prop := optParamsGood n.params

def callValid : Call → Prop
  | .methodCall m => methodCallValid m
  | .notification n => notificationValid n
  | .invalid i => idValid i

def successValid (s : Success) : Prop := idValid s.id ∧ jsonGood s.result

def failureValid (f : Failure) : Prop := idValid f.id ∧ errorValid f.error

def outputValid : Output → Prop
  | .success s => successValid s
  | .failure f => failureValid f

def msgValid : ServerMessage → Prop
  | .request c => callValid c
  | .response o => outputValid o

/-! ### Component round trips -/

theorem canon_idToJson (i : RpcId) : canon (idToJson i) = idToJson i := by
  cases i <;> rw [idToJson] <;> rw [canon]

theorem canon_optVersionJson (v : Option Version) :
    canon (optVersionJson v) = optVersionJson v := by
  cases v with
  | none => rw [optVersionJson, canon]
  | some v2 => cases v2; rw [optVersionJson, versionToJson, canon]

theorem idFromJson_idToJson (i : RpcId) (h : idValid i) :
    idFromJson (idToJson i) = Option.some i := by
  cases i with
  | null => rfl
  | str s => rfl
  | num n =>
    rw [idToJson, idFromJson]
    rw [if_pos ⟨by omega, by exact_mod_cast h⟩]
    simp

theorem optVersionFromJson_optVersionJson (v : Option Version) :
    optVersionFromJson (optVersionJson v) = Option.some v := by
  cases v with
  | none => rfl
  | some v2 => cases v2; rfl

theorem jsonWf_idToJson (i : RpcId) (h : idValid i) : jsonWf (idToJson i) = true := by
  cases i with
  | null => rfl
  | str s => rfl
  | num n =>
    rw [idToJson, jsonWf]
    simp only [Bool.and_eq_true, decide_eq_true_eq]
    constructor
    · omega
    · exact_mod_cast h

theorem jsonWf_optVersionJson (v : Option Version) :
    jsonWf (optVersionJson v) = true := by
  cases v with
  | none => rfl
  | some v2 => cases v2; rfl

theorem jsonWfMembers_append (a b : List (String × Json)) :
    jsonWfMembers (a ++ b) = (jsonWfMembers a && jsonWfMembers b) := by
  induction a with
  | nil => simp [jsonWfMembers]
  | cons kv rest ih =>
    obtain ⟨k, v⟩ := kv
    rw [List.cons_append, jsonWfMembers, jsonWfMembers, ih, Bool.and_assoc]

/-! ### serde round trips for the message types -/

theorem outputFromJson_methodCall (m : MethodCall) :
    outputFromJson (canon (methodCallToJson m)) = Option.none := by
  cases hp : m.params with
  | none =>
    simp [methodCallToJson, hp, canon, outputFromJson, successFromJson,
      failureFromJson, asObj, lookupJ_canonInto, lookupLast, lookupJ]
  | some p =>
    simp [methodCallToJson, hp, canon, outputFromJson, successFromJson,
      failureFromJson, asObj, lookupJ_canonInto, lookupLast, lookupJ]

theorem outputFromJson_notification (n : Notification) :
    outputFromJson (canon (notificationToJson n)) = Option.none := by
  cases hp : n.params with
  | none =>
    simp [notificationToJson, hp, canon, outputFromJson, successFromJson,
      failureFromJson, asObj, lookupJ_canonInto, lookupLast, lookupJ]
  | some p =>
    simp [notificationToJson, hp, canon, outputFromJson, successFromJson,
      failureFromJson, asObj, lookupJ_canonInto, lookupLast, lookupJ]

theorem outputFromJson_invalid (i : RpcId) :
    outputFromJson (canon (invalidToJson i)) = Option.none := by
  simp [invalidToJson, canon, outputFromJson, successFromJson,
    failureFromJson, asObj, lookupJ_canonInto, lookupLast, lookupJ]

theorem outputFromJson_callToJson (c : Call) :
    outputFromJson (canon (callToJson c)) = Option.none := by
  cases c with
  | methodCall m => exact outputFromJson_methodCall m
  | notification n => exact outputFromJson_notification n
  | invalid i => exact outputFromJson_invalid i

/-- The canonical form of a serialized `Params` value when its
embedded `serde_json` value is itself canonical. -/
theorem canon_paramsToJson_good (p : Params) (h : optParamsGood (Option.some p)) :
    canon (paramsToJson p) = paramsToJson p := by
  cases p with
  | none => exact absurd h (by simp [optParamsGood])
  | array xs =>
    simp only [optParamsGood] at h
    exact h.2
  | map mm =>
    simp only [optParamsGood] at h
    exact h.2

theorem paramsFromJson_paramsToJson (p : Params) (h : optParamsGood (Option.some p)) :
    optParamsFromJson (paramsToJson p) = Option.some (Option.some p) := by
  cases p with
  | none => exact absurd h (by simp [optParamsGood])
  | array xs => rfl
  | map mm => rfl

theorem callFromJson_methodCall (m : MethodCall) (hv : methodCallValid m) :
    callFromJson (canon (methodCallToJson m)) = Option.some (.methodCall m) := by
  obtain ⟨mjr, mmeth, mpar, mid⟩ := m
  obtain ⟨hid, hpg⟩ := hv
  rw [callFromJson]
  have hmc : methodCallFromJson (canon (methodCallToJson ⟨mjr, mmeth, mpar, mid⟩)) =
      Option.some ⟨mjr, mmeth, mpar, mid⟩ := by
    cases mpar with
    | none =>
      have hka : keysAllowed (canonInto []
          [("jsonrpc", optVersionJson mjr),
           ("method", Json.str mmeth), ("id", idToJson mid)])
          ["jsonrpc", "method", "params", "id"] = true := by
        apply keysAllowed_canonInto
        · intro kv hkv
          simp at hkv
          rcases hkv with h | h | h <;> simp [h]
        · rfl
      simp [methodCallFromJson, methodCallToJson, canon, asObj,
        lookupJ_canonInto, lookupLast, lookupJ, canon_idToJson, canon_optVersionJson,
        idFromJson_idToJson _ hid, optVersionFromJson_optVersionJson, hka]
    | some p =>
      have hcp := canon_paramsToJson_good p hpg
      have hka : keysAllowed (canonInto []
          [("jsonrpc", optVersionJson mjr),
           ("method", Json.str mmeth), ("params", paramsToJson p),
           ("id", idToJson mid)])
          ["jsonrpc", "method", "params", "id"] = true := by
        apply keysAllowed_canonInto
        · intro kv hkv
          simp at hkv
          rcases hkv with h | h | h | h <;> simp [h]
        · rfl
      simp only [methodCallToJson, List.append_assoc, List.cons_append, List.nil_append,
        canon]
      simp [methodCallFromJson, asObj, lookupJ_canonInto, lookupLast, lookupJ,
        canon, canon_idToJson, canon_optVersionJson, hcp,
        idFromJson_idToJson _ hid, optVersionFromJson_optVersionJson,
        paramsFromJson_paramsToJson p hpg, hka]
  rw [hmc]

theorem callFromJson_notification (n : Notification) (hv : notificationValid n) :
    callFromJson (canon (notificationToJson n)) = Option.some (.notification n) := by
  obtain ⟨njr, nmeth, npar⟩ := n
  have hpg : optParamsGood npar := hv
  rw [callFromJson]
  have hmc : methodCallFromJson (canon (notificationToJson ⟨njr, nmeth, npar⟩)) =
      Option.none := by
    cases npar with
    | none =>
      simp [methodCallFromJson, notificationToJson, canon, asObj,
        lookupJ_canonInto, lookupLast, lookupJ]
    | some p =>
      simp [methodCallFromJson, notificationToJson, canon, asObj,
        lookupJ_canonInto, lookupLast, lookupJ]
  rw [hmc]
  have hnt : notificationFromJson (canon (notificationToJson ⟨njr, nmeth, npar⟩)) =
      Option.some ⟨njr, nmeth, npar⟩ := by
    cases npar with
    | none =>
      have hka : keysAllowed (canonInto []
          [("jsonrpc", optVersionJson njr), ("method", Json.str nmeth)])
          ["jsonrpc", "method", "params"] = true := by
        apply keysAllowed_canonInto
        · intro kv hkv
          simp at hkv
          rcases hkv with h | h <;> simp [h]
        · rfl
      simp [notificationFromJson, notificationToJson, canon, asObj,
        lookupJ_canonInto, lookupLast, lookupJ, canon_optVersionJson,
        optVersionFromJson_optVersionJson, hka]
    | some p =>
      have hcp := canon_paramsToJson_good p hpg
      have hka : keysAllowed (canonInto []
          [("jsonrpc", optVersionJson njr), ("method", Json.str nmeth),
           ("params", paramsToJson p)])
          ["jsonrpc", "method", "params"] = true := by
        apply keysAllowed_canonInto
        · intro kv hkv
          simp at hkv
          rcases hkv with h | h | h <;> simp [h]
        · rfl
      simp [notificationFromJson, notificationToJson, canon, asObj,
        lookupJ_canonInto, lookupLast, lookupJ, canon_optVersionJson, hcp,
        optVersionFromJson_optVersionJson, paramsFromJson_paramsToJson p hpg, hka]
  rw [hnt]

theorem callFromJson_invalid (i : RpcId) (hv : idValid i) :
    callFromJson (canon (invalidToJson i)) = Option.some (.invalid i) := by
  rw [callFromJson]
  have hmc : methodCallFromJson (canon (invalidToJson i)) = Option.none := by
    simp [methodCallFromJson, invalidToJson, canon, asObj,
      lookupJ_canonInto, lookupLast, lookupJ]
  rw [hmc]
  have hnt : notificationFromJson (canon (invalidToJson i)) = Option.none := by
    simp [notificationFromJson, invalidToJson, canon, asObj,
      lookupJ_canonInto, lookupLast, lookupJ]
  rw [hnt]
  have hka : keysAllowed (canonInto [] [("id", idToJson i)]) ["id"] = true := by
    apply keysAllowed_canonInto
    · intro kv hkv
      simp at hkv
      simp [hkv]
    · rfl
  have hin : invalidFromJson (canon (invalidToJson i)) = Option.some i := by
    simp [invalidFromJson, invalidToJson, canon, asObj,
      lookupJ_canonInto, lookupLast, lookupJ, canon_idToJson,
      idFromJson_idToJson _ hv, hka]
  rw [hin]

theorem callFromJson_callToJson (c : Call) (hv : callValid c) :
    callFromJson (canon (callToJson c)) = Option.some c := by
  cases c with
  | methodCall m => exact callFromJson_methodCall m hv
  | notification n => exact callFromJson_notification n hv
  | invalid i => exact callFromJson_invalid i hv

theorem optValueField_of_lookup (kvs : List (String × Json)) (name : String) (d : Json)
    (h : lookupJ name kvs = Option.some d) (hd : d ≠ .null) :
    optValueField kvs name = Option.some d := by
  unfold optValueField
  rw [h]
  cases d with
  | null => exact absurd rfl hd
  | bool b => rfl
  | num n => rfl
  | str s => rfl
  | arr xs => rfl
  | obj ms => rfl

theorem errorFromJson_errorToJson (e : RpcError) (hv : errorValid e) :
    errorFromJson (canon (errorToJson e)) = Option.some e := by
  obtain ⟨ec, em, ed⟩ := e
  obtain ⟨hlo, hhi, hdata⟩ := hv
  have hlo2 : -(2 ^ 63 : Int) ≤ ec := hlo
  have hhi2 : ec < 2 ^ 63 := hhi
  cases ed with
  | none =>
    simp [errorFromJson, errorToJson, canon, asObj, lookupJ_canonInto, lookupLast,
      lookupJ, optValueField, hlo2, hhi2]
    omega
  | some d =>
    simp only [] at hdata
    have hlook : lookupJ "data" (canonInto []
        [("code", Json.num ec), ("message", Json.str em), ("data", d)]) =
        Option.some d := by
      rw [lookupJ_canonInto]
      simp [lookupLast, hdata.1.2]
    have hov := optValueField_of_lookup _ "data" d hlook hdata.2
    simp [errorFromJson, errorToJson, canon, asObj, lookupJ_canonInto, lookupLast,
      lookupJ, hov, hlo2, hhi2]
    omega

theorem outputFromJson_outputToJson (o : Output) (hv : outputValid o) :
    outputFromJson (canon (outputToJson o)) = Option.some o := by
  cases o with
  | success s =>
    obtain ⟨sjr, sres, sid⟩ := s
    obtain ⟨hid, hres⟩ := hv
    rw [outputFromJson, outputToJson]
    have hsc : successFromJson (canon (successToJson ⟨sjr, sres, sid⟩)) =
        Option.some ⟨sjr, sres, sid⟩ := by
      cases sjr with
      | none =>
        have hcanon : canon (successToJson ⟨Option.none, sres, sid⟩) =
            Json.obj (canonInto [] [("result", sres), ("id", idToJson sid)]) := by
          rw [show successToJson ⟨Option.none, sres, sid⟩ =
            Json.obj [("result", sres), ("id", idToJson sid)] from rfl, canon]
        have hka : keysAllowed (canonInto [] [("result", sres), ("id", idToJson sid)])
            ["jsonrpc", "result", "id"] = true := by
          apply keysAllowed_canonInto
          · intro kv hkv
            simp at hkv
            rcases hkv with h | h <;> simp [h]
          · rfl
        simp [successFromJson, hcanon, asObj, lookupJ_canonInto,
          lookupLast, lookupJ, canon_idToJson, hres.2,
          idFromJson_idToJson _ hid, hka]
      | some v2 =>
        cases v2
        have hcanon : canon (successToJson ⟨Option.some Version.v2, sres, sid⟩) =
            Json.obj (canonInto [] [("jsonrpc", Json.str "2.0"), ("result", sres),
              ("id", idToJson sid)]) := by
          rw [show successToJson ⟨Option.some Version.v2, sres, sid⟩ =
            Json.obj [("jsonrpc", Json.str "2.0"), ("result", sres),
              ("id", idToJson sid)] from rfl, canon]
        have hka : keysAllowed (canonInto []
            [("jsonrpc", Json.str "2.0"), ("result", sres), ("id", idToJson sid)])
            ["jsonrpc", "result", "id"] = true := by
          apply keysAllowed_canonInto
          · intro kv hkv
            simp at hkv
            rcases hkv with h | h | h <;> simp [h]
          · rfl
        simp [successFromJson, hcanon, asObj, lookupJ_canonInto,
          lookupLast, lookupJ, canon_idToJson, hres.2,
          (by rw [canon] : canon (Json.str "2.0") = Json.str "2.0"),
          idFromJson_idToJson _ hid, optVersionFromJson, versionFromJson, hka]
    rw [hsc]
  | failure f =>
    obtain ⟨fjr, ferr, fid⟩ := f
    obtain ⟨hid, herr⟩ := hv
    have herj := errorFromJson_errorToJson ferr herr
    rw [outputFromJson, outputToJson]
    cases fjr with
    | none =>
      have hcanon : canon (failureToJson ⟨Option.none, ferr, fid⟩) =
          Json.obj (canonInto [] [("error", errorToJson ferr), ("id", idToJson fid)]) := by
        rw [show failureToJson ⟨Option.none, ferr, fid⟩ =
          Json.obj [("error", errorToJson ferr), ("id", idToJson fid)] from rfl, canon]
      have hka : keysAllowed (canonInto []
          [("error", errorToJson ferr), ("id", idToJson fid)])
          ["jsonrpc", "error", "id"] = true := by
        apply keysAllowed_canonInto
        · intro kv hkv
          simp at hkv
          rcases hkv with h | h <;> simp [h]
        · rfl
      have hsc : successFromJson (canon (failureToJson ⟨Option.none, ferr, fid⟩)) =
          Option.none := by
        simp [successFromJson, hcanon, asObj, lookupJ_canonInto, lookupLast, lookupJ]
      rw [hsc]
      have hfl : failureFromJson (canon (failureToJson ⟨Option.none, ferr, fid⟩)) =
          Option.some ⟨Option.none, ferr, fid⟩ := by
        simp [failureFromJson, hcanon, asObj, lookupJ_canonInto, lookupLast, lookupJ,
          canon_idToJson, herj, idFromJson_idToJson _ hid, hka]
      rw [hfl]
    | some v2 =>
      cases v2
      have hcanon : canon (failureToJson ⟨Option.some Version.v2, ferr, fid⟩) =
          Json.obj (canonInto [] [("jsonrpc", Json.str "2.0"),
            ("error", errorToJson ferr), ("id", idToJson fid)]) := by
        rw [show failureToJson ⟨Option.some Version.v2, ferr, fid⟩ =
          Json.obj [("jsonrpc", Json.str "2.0"), ("error", errorToJson ferr),
            ("id", idToJson fid)] from rfl, canon]
      have hka : keysAllowed (canonInto []
          [("jsonrpc", Json.str "2.0"), ("error", errorToJson ferr),
           ("id", idToJson fid)])
          ["jsonrpc", "error", "id"] = true := by
        apply keysAllowed_canonInto
        · intro kv hkv
          simp at hkv
          rcases hkv with h | h | h <;> simp [h]
        · rfl
      have hsc : successFromJson (canon (failureToJson ⟨Option.some Version.v2, ferr,
          fid⟩)) = Option.none := by
        simp [successFromJson, hcanon, asObj, lookupJ_canonInto, lookupLast, lookupJ]
      rw [hsc]
      have hfl : failureFromJson (canon (failureToJson ⟨Option.some Version.v2, ferr,
          fid⟩)) = Option.some ⟨Option.some Version.v2, ferr, fid⟩ := by
        simp [failureFromJson, hcanon, asObj, lookupJ_canonInto, lookupLast, lookupJ,
          canon_idToJson, herj, idFromJson_idToJson _ hid,
          (by rw [canon] : canon (Json.str "2.0") = Json.str "2.0"),
          optVersionFromJson, versionFromJson, hka]
      rw [hfl]

theorem jsonWf_paramsToJson (p : Params) (h : optParamsGood (Option.some p)) :
    jsonWf (paramsToJson p) = true := by
  cases p with
  | none => exact absurd h (by simp [optParamsGood])
  | array xs => exact h.1
  | map mm => exact h.1

theorem jsonWf_errorToJson (e : RpcError) (hv : errorValid e) :
    jsonWf (errorToJson e) = true := by
  obtain ⟨ec, em, ed⟩ := e
  obtain ⟨hlo, hhi, hdata⟩ := hv
  have hlo2 : -(2 ^ 63 : Int) ≤ ec := hlo
  have hhi2 : ec < 2 ^ 63 := hhi
  cases ed with
  | none =>
    simp [errorToJson, jsonWf, jsonWfMembers]
    omega
  | some d =>
    simp only [] at hdata
    simp [errorToJson, jsonWf, jsonWfMembers, jsonWfMembers_append, hdata.1.1]
    omega

theorem jsonWf_msgToJson (m : ServerMessage) (hv : msgValid m) :
    jsonWf (msgToJson m) = true := by
  cases m with
  | request c =>
    cases c with
    | methodCall mc =>
      obtain ⟨mjr, mmeth, mpar, mid⟩ := mc
      obtain ⟨hid, hpg⟩ := hv
      cases mpar with
      | none =>
        simp [msgToJson, callToJson, methodCallToJson, jsonWf, jsonWfMembers,
          jsonWfMembers_append, jsonWf_optVersionJson, jsonWf_idToJson _ hid]
      | some p =>
        simp [msgToJson, callToJson, methodCallToJson, jsonWf, jsonWfMembers,
          jsonWfMembers_append, jsonWf_optVersionJson, jsonWf_idToJson _ hid,
          jsonWf_paramsToJson p hpg]
    | notification nt =>
      obtain ⟨njr, nmeth, npar⟩ := nt
      have hpg : optParamsGood npar := hv
      cases npar with
      | none =>
        simp [msgToJson, callToJson, notificationToJson, jsonWf, jsonWfMembers,
          jsonWfMembers_append, jsonWf_optVersionJson]
      | some p =>
        simp [msgToJson, callToJson, notificationToJson, jsonWf, jsonWfMembers,
          jsonWfMembers_append, jsonWf_optVersionJson, jsonWf_paramsToJson p hv]
    | invalid i =>
      simp [msgToJson, callToJson, invalidToJson, jsonWf, jsonWfMembers,
        jsonWf_idToJson _ hv]
  | response o =>
    cases o with
    | success s =>
      obtain ⟨sjr, sres, sid⟩ := s
      obtain ⟨hid, hres⟩ := hv
      cases sjr with
      | none =>
        simp [msgToJson, outputToJson, successToJson, jsonWf, jsonWfMembers,
          jsonWfMembers_append, jsonWf_idToJson _ hid, hres.1]
      | some v2 =>
        cases v2
        simp [msgToJson, outputToJson, successToJson, jsonWf, jsonWfMembers,
          jsonWfMembers_append, versionToJson, jsonWf_idToJson _ hid, hres.1]
    | failure f =>
      obtain ⟨fjr, ferr, fid⟩ := f
      obtain ⟨ec, em, ed⟩ := ferr
      obtain ⟨hid, herr⟩ := hv
      have hlo2 : -(2 ^ 63 : Int) ≤ ec := herr.1
      have hhi2 : ec < 2 ^ 63 := herr.2.1
      have hdata := herr.2.2
      cases fjr with
      | none =>
        cases ed with
        | none =>
          simp [msgToJson, outputToJson, failureToJson, errorToJson, jsonWf,
            jsonWfMembers, jsonWfMembers_append, jsonWf_idToJson _ hid]
          omega
        | some d =>
          simp only [] at hdata
          simp [msgToJson, outputToJson, failureToJson, errorToJson, jsonWf,
            jsonWfMembers, jsonWfMembers_append, jsonWf_idToJson _ hid, hdata.1.1]
          omega
      | some v2 =>
        cases v2
        cases ed with
        | none =>
          simp [msgToJson, outputToJson, failureToJson, errorToJson, jsonWf,
            jsonWfMembers, jsonWfMembers_append, versionToJson, jsonWf_idToJson _ hid]
          omega
        | some d =>
          simp only [] at hdata
          simp [msgToJson, outputToJson, failureToJson, errorToJson, jsonWf,
            jsonWfMembers, jsonWfMembers_append, versionToJson,
            jsonWf_idToJson _ hid, hdata.1.1]
          omega

/-- Serialize-then-classify is the identity on valid messages, with
the classification (`Response` first, then `Call`) preserved. -/
theorem classifyBody_serializeMsg (m : ServerMessage) (hv : msgValid m) :
    classifyBody (serializeMsg m) = .ok m := by
  have hwf := jsonWf_msgToJson m hv
  have hjs := jsonFromStr_print (msgToJson m) hwf
  cases m with
  | request c =>
    unfold classifyBody outputFromStr callFromStr serializeMsg
    rw [hjs, show msgToJson (ServerMessage.request c) = callToJson c from rfl]
    rw [show (Option.some (canon (callToJson c))).bind outputFromJson =
      outputFromJson (canon (callToJson c)) from rfl]
    rw [outputFromJson_callToJson c]
    rw [show (Option.some (canon (callToJson c))).bind callFromJson =
      callFromJson (canon (callToJson c)) from rfl]
    rw [callFromJson_callToJson c hv]
  | response o =>
    unfold classifyBody outputFromStr callFromStr serializeMsg
    rw [hjs, show msgToJson (ServerMessage.response o) = outputToJson o from rfl]
    rw [show (Option.some (canon (outputToJson o))).bind outputFromJson =
      outputFromJson (canon (outputToJson o)) from rfl]
    rw [outputFromJson_outputToJson o hv]

/-! ## Reader loop (`reader_loop`, `language_server_transport.rs:100-141`)

The byte stream from the subprocess's stdout is a `List Nat`.
`BufRead::read_line` reads up to and including a newline byte (or to
end of input) and requires the bytes to be valid UTF-8; `read_exact`
reads an exact byte count.  Error strings are the ones the Rust code
produces (its own literals, and the standard library's messages for
the two `io::Error`s that `?` propagates). -/

def readLineBytes : List Nat → List Nat × List Nat
  | [] => ([], [])
  | b :: rest =>
    if b = 10 then ([10], rest)
    else ((b :: (readLineBytes rest).1), (readLineBytes rest).2)

theorem readLineBytes_rest_le (l : List Nat) : (readLineBytes l).2.length ≤ l.length := by
  induction l with
  | nil => simp [readLineBytes]
  | cons b rest ih =>
    rw [readLineBytes]
    by_cases h : b = 10
    · rw [if_pos h]
      simp
    · rw [if_neg h]
      simp only [List.length_cons]
      omega

inductive HeadersResult where
  | eof (headers : List (String × String))
  | fail (e : String)
  | done (headers : List (String × String)) (rest : List Nat)

/-- The header-block loop of `reader_loop` (lines 104-119): read
lines until a blank line; zero bytes available at a line boundary is
the normal-termination signal (`return Ok(())`); a non-blank line
must split into exactly two parts on `": "`. -/
def readHeaders (headers : List (String × String)) (input : List Nat) : HeadersResult :=
  match input with
  | [] => .eof headers
  | b :: rest =>
    match utf8D (readLineBytes (b :: rest)).1 with
    | Option.none => .fail "stream did not contain valid UTF-8"
    | Option.some lineChars =>
      if trimA lineChars = [] then .done headers (readLineBytes (b :: rest)).2
      else
        match splitCS (trimA lineChars) with
        | [k, v] =>
          readHeaders (hInsert (String.mk k) (String.mk v) headers)
            (readLineBytes (b :: rest)).2
        | _ => .fail "Failed to parse header"
termination_by input.length
decreasing_by
  simp only [List.length_cons]
  have h2 : (readLineBytes (b :: rest)).2.length ≤ rest.length := by
    rw [readLineBytes]
    by_cases h : b = 10
    · rw [if_pos h]
    · rw [if_neg h]
      exact readLineBytes_rest_le rest
  omega

inductive LoopResult where
  | ok (delivered : List ServerMessage)
  | err (delivered : List ServerMessage) (e : String)

/-- One pass of `reader_loop` per frame, carrying the messages already
sent on the inbound channel.  The fuel only bounds the number of
frames; `readerRun` supplies `input.length + 1`, enough for any input
since every frame consumes at least one byte. -/
def readerLoopAux : Nat → List Nat → List ServerMessage → LoopResult
  | 0, _, acc => .err acc "fuel exhausted"
  | fuel + 1, input, acc =>
    match readHeaders [] input with
    | .eof _ => .ok acc
    | .fail e => .err acc e
    | .done headers rest =>
      match hGet "Content-Length" headers with
      | Option.none => .err acc "Failed to get Content-Length header"
      | Option.some v =>
        match parseUsize v with
        | Option.none => .err acc "Failed to parse Content-Length header"
        | Option.some n =>
          if n ≤ rest.length then
            match utf8D (rest.take n) with
            | Option.none => .err acc "Failed to read content as UTF-8 string"
            | Option.some chars =>
              match classifyBody (String.mk chars) with
              | .ok msg => readerLoopAux fuel (rest.drop n) (acc ++ [msg])
              | .error e => .err acc e
          else .err acc "failed to fill whole buffer"

def readerRun (input : List Nat) : LoopResult :=
  readerLoopAux (input.length + 1) input []

/-! ## Writer loop (`writer_loop`, lines 143-162) -/

/-- The bytes of one frame for a given serialized payload:
`write!(writer, "Content-Length: {}\r\n\r\n{}", request.len(), request)`;
`request.len()` is the payload's UTF-8 byte length. -/
def frameChars (payload : String) : List Char :=
  "Content-Length: ".data ++ natDigits (utf8E payload.data).length ++
    '\r' :: '\n' :: '\r' :: '\n' :: payload.data

def frameBytesOf (payload : String) : List Nat := utf8E (frameChars payload)

def frameBytes (m : ServerMessage) : List Nat := frameBytesOf (serializeMsg m)

/-- The writer loop: drain the channel (here: the list of messages the
controller sent before dropping its sender), serialize and frame each
message, write-and-flush it, then exit cleanly with `Ok(())`.  Each
element of the output list is one flushed write.  Serialization of
these message types cannot fail, so the `?` on `serde_json::to_string`
never fires in the model; write errors are outside the model (the
stream is a pure byte sink). -/
def writerLoop : List ServerMessage → List (List Nat) → Except String (List (List Nat))
  | [], out => .ok out
  | m :: rest, out => writerLoop rest (out ++ [frameBytes m])

def writerRun (msgs : List ServerMessage) : Except String (List (List Nat)) :=
  writerLoop msgs []

/-! ## Reader thread (`reader_thread`, lines 52-69)

After `reader_loop` returns — on the `Ok` path or the `Err` path —
the thread logs any error, waits on the child process (`child.wait()`,
"NOTE prevent zombie"), and sends one synthetic `exit` notification on
the inbound channel. -/

def exitNotification : Notification :=
  ⟨Option.some .v2, "exit", Option.some .none⟩

def exitMessage : ServerMessage := .request (.notification exitNotification)

structure ReaderThreadResult where
  loopResult : LoopResult
  reaped : Bool
  delivered : List ServerMessage

def readerThread (input : List Nat) : ReaderThreadResult :=
  { loopResult := readerRun input
    reaped := true
    delivered :=
      (match readerRun input with
       | .ok ms => ms
       | .err ms _ => ms) ++ [exitMessage] }

/-! ## `insert_value` (`workspace.rs:12-43`)

`serde_json::map::Map<String, Value>` is the `BTreeMap`-backed map
modelled by the sorted association list with `mapInsert`/`lookupJ`.
The `Err` payloads are modelled structurally (the Rust code formats
them into strings with `format!`): `notObject key` for the
"Expected path ... to be object" error, `replacedOld old` for the
"Replaced old value" error carrying the displaced value. -/

inductive InsertError where
  | notObject (key : String)
  | replacedOld (old : Json)

def insert_value : List (String × Json) → List String → String → Json →
    Except InsertError Unit × List (String × Json)
  | target, [], local_key, value =>
    match lookupJ local_key target with
    | Option.some o => (.error (.replacedOld o), mapInsert local_key value target)
    | Option.none => (.ok (), mapInsert local_key value target)
  | target, key :: pathRest, local_key, value =>
    match lookupJ key target with
    | Option.some (.obj inner) =>
      ((insert_value inner pathRest local_key value).1,
        mapInsert key (.obj (insert_value inner pathRest local_key value).2) target)
    | Option.some _ => (.error (.notObject key), target)
    | Option.none =>
      ((insert_value [] pathRest local_key value).1,
        mapInsert key (.obj (insert_value [] pathRest local_key value).2) target)

/-- Navigation through existing nested objects along a path. -/
def getPath : List (String × Json) → List String → Option (List (String × Json))
  | m, [] => Option.some m
  | m, k :: ks =>
    match lookupJ k m with
    | Option.some (.obj inner) => getPath inner ks
    | _ => Option.none

/-! ## Symbolic execution of the reader on well-formed frames -/

theorem readLineBytes_split (xs rest : List Nat) (h : 10 ∉ xs) :
    readLineBytes (xs ++ 10 :: rest) = (xs ++ [10], rest) := by
  induction xs with
  | nil =>
    rw [List.nil_append, readLineBytes, if_pos rfl]
    rfl
  | cons b bs ih =>
    have hb : b ≠ 10 := fun hc => h (by simp [hc])
    rw [List.cons_append, readLineBytes, if_neg hb,
      ih (fun hc => h (by simp [hc]))]
    rfl

theorem nl_not_in_utf8E (s : List Char) (h : '\n' ∉ s) : 10 ∉ utf8E s := by
  intro hmem
  rw [utf8E, List.mem_flatMap] at hmem
  obtain ⟨c, hc, hbyte⟩ := hmem
  exact h (newline_in_utf8Char c hbyte ▸ hc)

theorem utf8E_eq_nil (s : List Char) (h : utf8E s = []) : s = [] := by
  cases s with
  | nil => rfl
  | cons c cs =>
    exfalso
    rw [utf8E, List.flatMap_cons] at h
    have hne : utf8Char c ≠ [] := by
      unfold utf8Char
      by_cases h1 : c.toNat < 0x80
      · rw [if_pos h1]
        simp
      · by_cases h2 : c.toNat < 0x800
        · rw [if_neg h1, if_pos h2]
          simp
        · by_cases h3 : c.toNat < 0x10000
          · rw [if_neg h1, if_neg h2, if_pos h3]
            simp
          · rw [if_neg h1, if_neg h2, if_neg h3]
            simp
    exact hne (List.append_eq_nil.mp h).1

theorem dropWhile_append_of_all (p : Char → Bool) (xs ys : List Char)
    (hx : ∀ c ∈ xs, p c = true) :
    (xs ++ ys).dropWhile p = ys.dropWhile p := by
  induction xs with
  | nil => simp
  | cons c cs ih =>
    rw [List.cons_append, List.dropWhile_cons, if_pos (hx c (by simp))]
    exact ih (fun d hd => hx d (by simp [hd]))

theorem trimA_append_ws (core suffix : List Char)
    (hhead : ∀ c, core.head? = some c → isWsA c = false)
    (hlast : ∀ c, core.getLast? = some c → isWsA c = false)
    (hsuf : ∀ c ∈ suffix, isWsA c = true) :
    trimA (core ++ suffix) = core := by
  cases core with
  | nil =>
    rw [List.nil_append]
    unfold trimA
    rw [show suffix.dropWhile isWsA = List.dropWhile isWsA (suffix ++ []) by simp,
      dropWhile_append_of_all isWsA suffix [] hsuf]
    simp
  | cons c cs =>
    obtain ⟨d, ds, hrd⟩ : ∃ d ds, (c :: cs).reverse = d :: ds := by
      cases hr : (c :: cs).reverse with
      | nil => exact absurd hr (by simp)
      | cons d ds => exact ⟨d, ds, rfl⟩
    have hd : isWsA d = false := by
      apply hlast d
      rw [← List.head?_reverse, hrd]
      rfl
    unfold trimA
    rw [List.cons_append, List.dropWhile_cons,
      if_neg (by rw [hhead c (by simp)]; simp)]
    rw [show (c :: (cs ++ suffix)).reverse = (cs ++ suffix).reverse ++ [c] from
      List.reverse_cons c (cs ++ suffix)]
    rw [List.reverse_append, List.append_assoc]
    rw [dropWhile_append_of_all isWsA suffix.reverse _
      (fun e he => hsuf e (List.mem_reverse.mp he))]
    rw [show cs.reverse ++ [c] = (c :: cs).reverse from (List.reverse_cons c cs).symm]
    rw [hrd, List.dropWhile_cons, if_neg (by rw [hd]; simp)]
    rw [← hrd, List.reverse_reverse]

theorem utf8D_nl : utf8D [10] = Option.some ['\n'] := by
  rw [utf8D_of_decodeOne [10] '\n' 1 (by decide)]
  rw [show List.drop 1 [10] = ([] : List Nat) from rfl]
  rw [utf8D]
  rfl

/-- Reading one line of a header block: the reader consumes the bytes
of `line` up to and including the newline, decodes and trims them, and
either ends the block (blank line), stores a well-formed header, or
fails. -/
theorem readHeaders_cons_line (hdrs : List (String × String)) (line : List Char)
    (rest : List Nat) (h10 : '\n' ∉ line) :
    readHeaders hdrs (utf8E line ++ 10 :: rest) =
      (if trimA (line ++ ['\n']) = [] then .done hdrs rest
       else
         match splitCS (trimA (line ++ ['\n'])) with
         | [k, v] => readHeaders (hInsert (String.mk k) (String.mk v) hdrs) rest
         | _ => .fail "Failed to parse header") := by
  have hsplit := readLineBytes_split (utf8E line) rest (nl_not_in_utf8E line h10)
  have hdec : utf8D (utf8E line ++ [10]) = Option.some (line ++ ['\n']) := by
    rw [utf8D_append_utf8E, utf8D_nl]
    rfl
  cases hE : utf8E line with
  | nil =>
    have hl : line = [] := utf8E_eq_nil line hE
    subst hl
    simp only [List.nil_append]
    rw [readHeaders]
    rw [show readLineBytes (10 :: rest) = ([10], rest) by
      rw [readLineBytes, if_pos rfl]]
    rw [show (([10], rest) : List Nat × List Nat).1 = [10] from rfl,
      show (([10], rest) : List Nat × List Nat).2 = rest from rfl]
    rw [utf8D_nl]
  | cons b bs =>
    rw [hE, List.cons_append] at hsplit
    rw [hE] at hdec
    rw [List.cons_append, readHeaders, hsplit]
    rw [show (((b :: bs) ++ [10], rest) : List Nat × List Nat).1 = (b :: bs) ++ [10]
      from rfl,
      show (((b :: bs) ++ [10], rest) : List Nat × List Nat).2 = rest from rfl]
    rw [hdec]

theorem digit_misc (c : Char) (h : c.isDigit = true) : c ≠ ':' ∧ c ≠ '\n' := by
  constructor <;> (intro hc; subst hc; exact absurd h (by decide))

theorem splitCS_contentLength (ds : List Char) (hds : ∀ c ∈ ds, c ≠ ':') :
    splitCS ("Content-Length: ".data ++ ds) = ["Content-Length".data, ds] := by
  rw [splitCS]
  rw [show "Content-Length: ".data ++ ds =
    'C' :: 'o' :: 'n' :: 't' :: 'e' :: 'n' :: 't' :: '-' :: 'L' :: 'e' :: 'n' ::
      'g' :: 't' :: 'h' :: ':' :: ' ' :: ds from rfl]
  rw [splitCSAux_step _ _ _ (by decide)]
  rw [splitCSAux_step _ _ _ (by decide)]
  rw [splitCSAux_step _ _ _ (by decide)]
  rw [splitCSAux_step _ _ _ (by decide)]
  rw [splitCSAux_step _ _ _ (by decide)]
  rw [splitCSAux_step _ _ _ (by decide)]
  rw [splitCSAux_step _ _ _ (by decide)]
  rw [splitCSAux_step _ _ _ (by decide)]
  rw [splitCSAux_step _ _ _ (by decide)]
  rw [splitCSAux_step _ _ _ (by decide)]
  rw [splitCSAux_step _ _ _ (by decide)]
  rw [splitCSAux_step _ _ _ (by decide)]
  rw [splitCSAux_step _ _ _ (by decide)]
  rw [splitCSAux_step _ _ _ (by decide)]
  rw [splitCSAux_sep]
  rw [splitCSAux_no_colon [] ds hds]
  rfl

/-- The byte stream of a writer frame followed by more input, cut at
the reader's line boundaries: the Content-Length line, its newline
byte, the `\r` of the blank line, its newline byte, then the payload
bytes. -/
theorem frame_decomp (payload : String) (rest : List Nat) :
    frameBytesOf payload ++ rest =
      utf8E ("Content-Length: ".data ++ natDigits (utf8E payload.data).length ++ ['\r'])
        ++ 10 :: (13 :: (10 :: (utf8E payload.data ++ rest))) := by
  rw [frameBytesOf, frameChars]
  rw [show ('\r' :: '\n' :: '\r' :: '\n' :: payload.data) =
    ['\r'] ++ ('\n' :: '\r' :: '\n' :: []) ++ payload.data by simp]
  rw [show "Content-Length: ".data ++ natDigits (utf8E payload.data).length ++
      (['\r'] ++ ['\n', '\r', '\n'] ++ payload.data) =
    ("Content-Length: ".data ++ natDigits (utf8E payload.data).length ++ ['\r']) ++
      (['\n', '\r', '\n'] ++ payload.data) by simp]
  rw [utf8E_append, utf8E_append, utf8E_append]
  rw [show utf8E (['\n', '\r', '\n'] ++ payload.data) = [10, 13, 10] ++ utf8E payload.data
    by rw [utf8E_append]; rfl]
  simp

/-- Reading the header block of a writer frame: both header lines are
consumed, exactly the `Content-Length` entry (with the payload's byte
length) is stored, and the remaining input starts at the payload
bytes. -/
theorem readHeaders_frame (payload : String) (rest : List Nat) :
    readHeaders [] (frameBytesOf payload ++ rest) =
      .done [("Content-Length", String.mk (natDigits (utf8E payload.data).length))]
        (utf8E payload.data ++ rest) := by
  have hdig := natDigits_all_digit (utf8E payload.data).length
  have hline1 : '\n' ∉
      ("Content-Length: ".data ++ natDigits (utf8E payload.data).length ++ ['\r']) := by
    intro hm
    rcases List.mem_append.mp hm with hm1 | hm2
    · rcases List.mem_append.mp hm1 with hm3 | hm4
      · exact absurd hm3 (by decide)
      · exact absurd (hdig _ hm4) (by decide)
    · simp at hm2
  rw [frame_decomp]
  rw [readHeaders_cons_line [] _ _ hline1]
  have htrim : trimA
      (("Content-Length: ".data ++ natDigits (utf8E payload.data).length ++ ['\r'])
        ++ ['\n']) =
      "Content-Length: ".data ++ natDigits (utf8E payload.data).length := by
    rw [List.append_assoc
      ("Content-Length: ".data ++ natDigits (utf8E payload.data).length) ['\r'] ['\n']]
    apply trimA_append_ws _ _ _ _ (by decide)
    · intro c hc
      rw [show ("Content-Length: ".data ++
          natDigits (utf8E payload.data).length).head? = some 'C' from rfl] at hc
      cases hc
      decide
    · intro c hc
      rw [List.getLast?_append] at hc
      cases hd : (natDigits (utf8E payload.data).length).getLast? with
      | none =>
        exfalso
        exact natDigits_ne_nil _ (List.getLast?_eq_none_iff.mp hd)
      | some d =>
        rw [hd] at hc
        rw [show (Option.some d).or
          ("Content-Length: ".data).getLast? = some d from rfl] at hc
        cases hc
        have hmem : c ∈ natDigits (utf8E payload.data).length :=
          List.mem_of_mem_getLast? (by rw [hd]; rfl)
        exact (digit_head_facts c (hdig c hmem)).2.2.2.2.2.2.2.1
  rw [htrim]
  rw [if_neg (by
    intro hc
    have hlen0 : ("Content-Length: ".data).length +
        (natDigits (utf8E payload.data).length).length = 0 := by
      rw [← List.length_append, hc]
      rfl
    have hz : (natDigits (utf8E payload.data).length).length = 0 := by
      have h16 : ("Content-Length: ".data).length = 16 := rfl
      omega
    exact natDigits_ne_nil _ (List.length_eq_zero.mp hz))]
  rw [splitCS_contentLength _ (fun c hc => (digit_misc c (hdig c hc)).1)]
  simp only []
  rw [strMk_data "Content-Length"]
  rw [show (13 : Nat) :: (10 :: (utf8E payload.data ++ rest)) =
    utf8E ['\r'] ++ 10 :: (utf8E payload.data ++ rest) from rfl]
  rw [readHeaders_cons_line _ ['\r'] _ (by decide)]
  rw [if_pos (by decide : trimA (['\r'] ++ ['\n']) = [])]
  rfl

/-- One frame step of the reader loop: on input that starts with a
complete writer frame, the loop parses the headers, reads exactly the
payload bytes, classifies the decoded body, and either recurses on the
remaining input with the message delivered or stops with the
classification error. -/
theorem readerLoopAux_frameOf (fuel : Nat) (payload : String) (rest : List Nat)
    (acc : List ServerMessage)
    (hlen : (utf8E payload.data).length < 2 ^ 64) :
    readerLoopAux (fuel + 1) (frameBytesOf payload ++ rest) acc =
      match classifyBody payload with
      | .ok msg => readerLoopAux fuel rest (acc ++ [msg])
      | .error e => .err acc e := by
  rw [readerLoopAux]
  rw [readHeaders_frame]
  simp only []
  rw [show hGet "Content-Length"
      [("Content-Length", String.mk (natDigits (utf8E payload.data).length))] =
    Option.some (String.mk (natDigits (utf8E payload.data).length)) by
      rw [hGet, if_pos rfl]]
  simp only []
  rw [parseUsize_natDigits _ hlen]
  simp only []
  rw [if_pos (by simp : (utf8E payload.data).length ≤
    (utf8E payload.data ++ rest).length)]
  rw [List.take_left]
  rw [utf8D_utf8E]
  simp only []
  rw [strMk_data]
  simp only [List.drop_left]

theorem readerLoopAux_nil (fuel : Nat) (acc : List ServerMessage) :
    readerLoopAux (fuel + 1) [] acc = .ok acc := by
  rw [readerLoopAux]
  rw [show readHeaders [] [] = .eof [] by rw [readHeaders]]

theorem frameBytesOf_length_pos (payload : String) :
    0 < (frameBytesOf payload).length := by
  have h := frame_decomp payload []
  rw [List.append_nil] at h
  rw [h]
  simp

/-- A complete frame followed by end-of-stream: the reader delivers
exactly the one message the body classifies to. -/
theorem readerRun_frame_ok (payload : String) (msg : ServerMessage)
    (hlen : (utf8E payload.data).length < 2 ^ 64)
    (hc : classifyBody payload = .ok msg) :
    readerRun (frameBytesOf payload) = .ok [msg] := by
  rw [readerRun]
  rw [show frameBytesOf payload = frameBytesOf payload ++ [] by simp]
  rw [readerLoopAux_frameOf _ payload [] [] hlen]
  rw [hc]
  have hpos := frameBytesOf_length_pos payload
  obtain ⟨n, hn⟩ : ∃ n, (frameBytesOf payload ++ []).length = n + 1 :=
    ⟨(frameBytesOf payload ++ []).length - 1, by simp; omega⟩
  rw [hn]
  simp only []
  rw [readerLoopAux_nil]
  rw [List.nil_append]

theorem writerLoop_acc (msgs : List ServerMessage) (out : List (List Nat)) :
    writerLoop msgs out = .ok (out ++ msgs.map frameBytes) := by
  induction msgs generalizing out with
  | nil => simp [writerLoop]
  | cons m rest ih =>
    rw [writerLoop, ih]
    simp

/-! ## Concrete evaluation of the synthetic exit notification's frame -/

/-- What the exit notification's body parses back to: the `params`
field collapses from `Some(Params::None)` to `None` (serde sees the
serialized `null` and stops at the `Option` layer). -/
def exitRead : ServerMessage :=
  .request (.notification ⟨Option.some .v2, "exit", Option.none⟩)

def exitJson : Json :=
  .obj [("jsonrpc", .str "2.0"), ("method", .str "exit"), ("params", .null)]

theorem msgToJson_exit : msgToJson exitMessage = exitJson := rfl

theorem exitJson_wf : jsonWf exitJson = true := by
  simp [exitJson, jsonWf, jsonWfMembers]

theorem exitJson_canon : canon exitJson = exitJson := by
  simp +decide [exitJson, canon, canonInto, mapInsert]

theorem serializeMsg_exit :
    serializeMsg exitMessage = String.mk (printJson exitJson) := by
  rw [serializeMsg, msgToJson_exit]

theorem classify_exit :
    classifyBody (serializeMsg exitMessage) = .ok exitRead := by
  have hparse : jsonFromStr (String.mk (printJson exitJson)) = Option.some exitJson := by
    rw [jsonFromStr_print exitJson exitJson_wf, exitJson_canon]
  rw [classifyBody, outputFromStr, callFromStr, serializeMsg_exit, hparse]
  rfl

theorem printJson_exit :
    printJson exitJson =
      "\x7b\"jsonrpc\":\"2.0\",\"method\":\"exit\",\"params\":null\x7d".data := by
  simp +decide [exitJson, printJson, printObjBody, printObjRest, printStr,
    printStrBody, escChar]

theorem exit_payload_len :
    (utf8E (serializeMsg exitMessage).data).length < 2 ^ 64 := by
  rw [serializeMsg_exit]
  rw [show (String.mk (printJson exitJson)).data = printJson exitJson from rfl]
  rw [printJson_exit]
  decide

theorem exitRead_valid : msgValid exitRead := trivial

def exitReadJson : Json := .obj [("jsonrpc", .str "2.0"), ("method", .str "exit")]

theorem printJson_exitRead :
    printJson exitReadJson = "\x7b\"jsonrpc\":\"2.0\",\"method\":\"exit\"\x7d".data := by
  simp +decide [exitReadJson, printJson, printObjBody, printObjRest, printStr,
    printStrBody, escChar]

theorem exitRead_payload_len :
    (utf8E (serializeMsg exitRead).data).length < 2 ^ 64 := by
  rw [show serializeMsg exitRead = String.mk (printJson exitReadJson) from rfl]
  rw [show (String.mk (printJson exitReadJson)).data = printJson exitReadJson from rfl]
  rw [printJson_exitRead]
  decide

/-! ## The claims -/

/-- C1: for every valid `ServerMessage` (Request, Notification, or
Response), the writer frames it and the reader parses that frame back
to the same value, classified the same way.  This is the amended
statement: validity (`msgValid`) excludes in particular a present
`params` field holding `Params::None` and a present `error.data`
holding `Value::Null`, which serialize to `null` and deserialize to an
absent field (serde's `Option` layer consumes the `null` first), so
the original unrestricted claim fails on those values. -/
theorem C1_valid_roundtrip (m : ServerMessage) (hv : msgValid m)
    (hlen : (utf8E (serializeMsg m).data).length < 2 ^ 64) :
    writerRun [m] = .ok [frameBytes m] ∧ readerRun (frameBytes m) = .ok [m] :=
  ⟨rfl, readerRun_frame_ok (serializeMsg m) m hlen (classifyBody_serializeMsg m hv)⟩

theorem C1_valid_roundtrip_witness :
    writerRun [exitRead] = .ok [frameBytes exitRead] ∧
      readerRun (frameBytes exitRead) = .ok [exitRead] :=
  C1_valid_roundtrip exitRead exitRead_valid exitRead_payload_len

/-- C1 counterexample: the repository's own synthetic exit
notification carries `params = Some(Params::None)`; framing it and
parsing the frame yields the notification with `params = None`, which
is not field-equal to the original. -/
theorem C1_params_collapse_counterexample :
    readerRun (frameBytes exitMessage) = .ok [exitRead] ∧ exitRead ≠ exitMessage := by
  constructor
  · exact readerRun_frame_ok (serializeMsg exitMessage) exitRead
      exit_payload_len classify_exit
  · simp [exitRead, exitMessage, exitNotification]

/-- C2: classification of a decoded body is a pure function of the
body with a fixed tie-break: an `Output` interpretation wins, a `Call`
interpretation is tried only if `Output` fails, and if both fail the
body produces the fatal unrecognized-message error — and a frame whose
body classifies to that error delivers no message (the loop stops with
the accumulator unchanged). -/
theorem C2_classification_order (body : String) :
    (∀ o, outputFromStr body = Option.some o →
      classifyBody body = .ok (.response o)) ∧
    (outputFromStr body = Option.none → ∀ c, callFromStr body = Option.some c →
      classifyBody body = .ok (.request c)) ∧
    (outputFromStr body = Option.none → callFromStr body = Option.none →
      classifyBody body = .error "Failed to parse language server message" ∧
      ∀ fuel rest acc, (utf8E body.data).length < 2 ^ 64 →
        readerLoopAux (fuel + 1) (frameBytesOf body ++ rest) acc =
          .err acc "Failed to parse language server message") := by
  refine ⟨?_, ?_, ?_⟩
  · intro o ho
    rw [classifyBody, ho]
  · intro hn c hc
    rw [classifyBody, hn, hc]
  · intro hn hc
    have hcb : classifyBody body = .error "Failed to parse language server message" := by
      rw [classifyBody, hn, hc]
    refine ⟨hcb, ?_⟩
    intro fuel rest acc hlen
    rw [readerLoopAux_frameOf fuel body rest acc hlen, hcb]

theorem jsonFromStr_x : jsonFromStr "x" = Option.none := by
  simp +decide [jsonFromStr, parseValue, charAt, skipWs]

theorem C2_classification_order_witness :
    classifyBody "x" = .error "Failed to parse language server message" ∧
      readerLoopAux (0 + 1) (frameBytesOf "x" ++ []) [] =
        .err [] "Failed to parse language server message" := by
  have h := (C2_classification_order "x").2.2
    (by rw [outputFromStr, jsonFromStr_x]; rfl)
    (by rw [callFromStr, jsonFromStr_x]; rfl)
  exact ⟨h.1, h.2 0 [] [] (by decide)⟩

/-- C3: end-of-stream at a frame boundary — immediately, or after a
complete frame — ends the reader loop with a success result; the
thread then reaps the child and delivers exactly one synthetic Exit
notification after the messages of the completed frames. -/
theorem C3_eof_reap_exit (m : ServerMessage) (hv : msgValid m)
    (hlen : (utf8E (serializeMsg m).data).length < 2 ^ 64) :
    readerRun [] = .ok [] ∧
    (readerThread []).reaped = true ∧
    (readerThread []).delivered = [exitMessage] ∧
    readerRun (frameBytes m) = .ok [m] ∧
    (readerThread (frameBytes m)).reaped = true ∧
    (readerThread (frameBytes m)).delivered = [m, exitMessage] := by
  have hr : readerRun [] = .ok [] := by
    rw [readerRun]
    exact readerLoopAux_nil 0 []
  have hm : readerRun (frameBytes m) = .ok [m] :=
    readerRun_frame_ok (serializeMsg m) m hlen (classifyBody_serializeMsg m hv)
  exact ⟨hr, rfl, by simp [readerThread, hr], hm, rfl, by simp [readerThread, hm]⟩

theorem C3_eof_reap_exit_witness :
    readerRun [] = .ok [] ∧
    (readerThread []).reaped = true ∧
    (readerThread []).delivered = [exitMessage] ∧
    readerRun (frameBytes exitRead) = .ok [exitRead] ∧
    (readerThread (frameBytes exitRead)).reaped = true ∧
    (readerThread (frameBytes exitRead)).delivered = [exitRead, exitMessage] :=
  C3_eof_reap_exit exitRead exitRead_valid exitRead_payload_len

/-- C4 (amended): the reap-then-Exit sequence is unconditional — after
`reader_loop` returns, on the success path and on the error path
alike, the thread waits on the child and delivers one synthetic Exit
notification.  The original claim (error paths skip the reap and the
Exit) contradicts the code: `reader_thread` runs `child.wait()` and
sends the Exit notification after `reader_loop` regardless of its
result. -/
theorem C4_reap_exit_on_every_path (input : List Nat) :
    (readerThread input).reaped = true ∧
    (readerThread input).delivered =
      (match readerRun input with
       | .ok ms => ms
       | .err ms _ => ms) ++ [exitMessage] :=
  ⟨rfl, rfl⟩

/-- C4 counterexample: the two-byte input `"X\n"` makes the header
parser fail (a fatal parse error, not end-of-stream), yet the thread
still reports the child reaped and still delivers the synthetic Exit
notification. -/
theorem C4_error_path_counterexample :
    readerRun [88, 10] = .err [] "Failed to parse header" ∧
    (readerThread [88, 10]).reaped = true ∧
    (readerThread [88, 10]).delivered = [exitMessage] := by
  have hr : readerRun [88, 10] = .err [] "Failed to parse header" := by
    rw [readerRun, readerLoopAux]
    rw [show ([88, 10] : List Nat) = utf8E ['X'] ++ 10 :: [] from rfl]
    rw [readHeaders_cons_line [] ['X'] [] (by decide)]
    rw [show trimA (['X'] ++ ['\n']) = ['X'] by decide]
    rw [if_neg (by decide : ¬(['X'] : List Char) = [])]
    rw [show splitCS ['X'] = [['X']] by
      rw [splitCS, splitCSAux_no_colon [] ['X'] (by decide)]
      rfl]
  exact ⟨hr, rfl, by simp [readerThread, hr]⟩

/-- C5 (amended): zero bytes available at ANY header-line read — the
first line of a frame or a later one — makes `reader_loop` return
`Ok(())`: `read_line` returning 0 is treated as graceful shutdown at
every header line, not only at the first line of a frame.  The
original claim (mid-frame end-of-stream is not a normal termination
trigger) contradicts the code, which checks `reader.read_line(&mut
header) == 0` on every header-line iteration. -/
theorem C5_eof_during_headers_ok (fuel : Nat) (input : List Nat)
    (acc : List ServerMessage) (hdrs : List (String × String))
    (he : readHeaders [] input = .eof hdrs) :
    readerLoopAux (fuel + 1) input acc = .ok acc := by
  rw [readerLoopAux, he]

theorem C5_eof_during_headers_ok_witness :
    readerLoopAux (0 + 1) [] [] = .ok [] :=
  C5_eof_during_headers_ok 0 [] [] [] (by rw [readHeaders])

/-- C5 counterexample: end-of-stream reached after one complete header
line of a frame (the frame's `Content-Length` line, no blank line and
no body yet) still terminates the reader normally with a success
result. -/
theorem C5_mid_frame_eof_counterexample :
    readerRun (utf8E "Content-Length: 5\r".data ++ [10]) = .ok [] := by
  rw [readerRun, readerLoopAux]
  rw [show (10 : Nat) :: [] = 10 :: ([] : List Nat) from rfl]
  rw [readHeaders_cons_line [] ("Content-Length: 5\r".data) [] (by decide)]
  rw [show trimA ("Content-Length: 5\r".data ++ ['\n']) = "Content-Length: 5".data
    by decide]
  rw [if_neg (by decide : ¬("Content-Length: 5".data : List Char) = [])]
  rw [show ("Content-Length: 5".data : List Char) = "Content-Length: ".data ++ ['5']
    from rfl]
  rw [splitCS_contentLength ['5'] (by decide)]
  simp only []
  rw [readHeaders]

/-- C6: for every outbound message the writer emits exactly the bytes
of `"Content-Length: "`, the decimal digits of the payload's UTF-8
byte length, `"\r\n\r\n"`, then the UTF-8 payload bytes; the decimal
digits denote precisely the byte length (`digitsVal` recovers it); and
byte length differs from character count on multi-byte payloads (the
one-character string `"é"` occupies two bytes). -/
theorem C6_frame_bytes (m : ServerMessage) :
    frameBytes m =
      utf8E "Content-Length: ".data ++
        utf8E (natDigits (utf8E (serializeMsg m).data).length) ++
        [13, 10, 13, 10] ++ utf8E (serializeMsg m).data ∧
    digitsVal (natDigits (utf8E (serializeMsg m).data).length) =
      (utf8E (serializeMsg m).data).length ∧
    (utf8E "é".data).length = 2 ∧ ("é".data).length = 1 := by
  refine ⟨?_, digitsVal_natDigits _, by decide, by decide⟩
  rw [frameBytes, frameBytesOf, frameChars]
  rw [show ('\r' :: '\n' :: '\r' :: '\n' :: (serializeMsg m).data) =
    ['\r', '\n', '\r', '\n'] ++ (serializeMsg m).data from rfl]
  rw [utf8E_append, utf8E_append]
  rw [show utf8E (['\r', '\n', '\r', '\n'] ++ (serializeMsg m).data) =
    [13, 10, 13, 10] ++ utf8E (serializeMsg m).data by rw [utf8E_append]; rfl]
  simp

/-- C7: header-block validation in the reader.  A non-blank header
line that does not split into exactly two parts on `": "` fails the
frame with the malformed-header error; a completed header block with
no `"Content-Length"` entry fails with the missing-header error; a
`"Content-Length"` value that does not parse as a non-negative integer
fails with the unparsable-value error; and the missing-header error is
distinct from the malformed-line error. -/
theorem C7_header_validation :
    (∀ hdrs line rest parts, '\n' ∉ line → trimA (line ++ ['\n']) ≠ [] →
      splitCS (trimA (line ++ ['\n'])) = parts → parts.length ≠ 2 →
      readHeaders hdrs (utf8E line ++ 10 :: rest) = .fail "Failed to parse header") ∧
    (∀ fuel input acc hdrs rest, readHeaders [] input = .done hdrs rest →
      hGet "Content-Length" hdrs = Option.none →
      readerLoopAux (fuel + 1) input acc =
        .err acc "Failed to get Content-Length header") ∧
    (∀ fuel input acc hdrs rest v, readHeaders [] input = .done hdrs rest →
      hGet "Content-Length" hdrs = Option.some v → parseUsize v = Option.none →
      readerLoopAux (fuel + 1) input acc =
        .err acc "Failed to parse Content-Length header") ∧
    "Failed to get Content-Length header" ≠ "Failed to parse header" := by
  refine ⟨?_, ?_, ?_, by decide⟩
  · intro hdrs line rest parts hnl htr hsp hlen2
    rw [readHeaders_cons_line hdrs line rest hnl]
    rw [if_neg htr, hsp]
    match parts, hlen2 with
    | [], _ => rfl
    | [x], _ => rfl
    | [x, y], h => exact absurd rfl h
    | x :: y :: z :: t, _ => rfl
  · intro fuel input acc hdrs rest hdone hnone
    rw [readerLoopAux, hdone]
    simp only []
    rw [hnone]
  · intro fuel input acc hdrs rest v hdone hsome hbad
    rw [readerLoopAux, hdone]
    simp only []
    rw [hsome]
    simp only []
    rw [hbad]

theorem readHeaders_blank : readHeaders [] [13, 10] = .done [] [] := by
  rw [show ([13, 10] : List Nat) = utf8E ['\r'] ++ 10 :: [] from rfl]
  rw [readHeaders_cons_line [] ['\r'] [] (by decide)]
  rw [if_pos (by decide : trimA (['\r'] ++ ['\n']) = [])]

theorem C7_header_validation_witness :
    readHeaders [] (utf8E ['X'] ++ 10 :: []) = .fail "Failed to parse header" ∧
    readerLoopAux (0 + 1) [13, 10] [] =
      .err [] "Failed to get Content-Length header" :=
  ⟨C7_header_validation.1 [] ['X'] [] [['X']] (by decide) (by decide)
      (by rw [show trimA (['X'] ++ ['\n']) = ['X'] by decide]
          rw [splitCS, splitCSAux_no_colon [] ['X'] (by decide)]
          rfl)
      (by decide),
    C7_header_validation.2.1 0 [13, 10] [] [] [] readHeaders_blank rfl⟩

/-- C8: the writer loop drains the channel, framing every message it
received in order, and exits with a success result once the channel is
empty with no senders left. -/
theorem C8_writer_clean_exit (msgs : List ServerMessage) :
    writerRun msgs = .ok (msgs.map frameBytes) := by
  rw [writerRun, writerLoop_acc, List.nil_append]

/-- C9: header-name matching is exact and case-sensitive: a frame
whose length header is spelled `content-length` parses as a
well-formed header line and is stored in the header map, yet the
lookup of `"Content-Length"` misses and the reader fails with the
missing-Content-Length error. -/
theorem C9_case_sensitive_header (fuel : Nat) (rest : List Nat)
    (acc : List ServerMessage) :
    readHeaders [] (utf8E "content-length: 5\r".data ++ 10 :: 13 :: 10 :: rest) =
      .done [("content-length", "5")] rest ∧
    readerLoopAux (fuel + 1)
        (utf8E "content-length: 5\r".data ++ 10 :: 13 :: 10 :: rest) acc =
      .err acc "Failed to get Content-Length header" := by
  have hH : readHeaders []
      (utf8E "content-length: 5\r".data ++ 10 :: 13 :: 10 :: rest) =
      .done [("content-length", "5")] rest := by
    rw [readHeaders_cons_line [] ("content-length: 5\r".data) _ (by decide)]
    rw [show trimA ("content-length: 5\r".data ++ ['\n']) = "content-length: 5".data
      by decide]
    rw [if_neg (by decide : ¬("content-length: 5".data : List Char) = [])]
    rw [show splitCS "content-length: 5".data = ["content-length".data, ['5']] by
      simp +decide [splitCS, splitCSAux]]
    simp only []
    rw [show (13 : Nat) :: (10 :: rest) = utf8E ['\r'] ++ 10 :: rest from rfl]
    rw [readHeaders_cons_line _ ['\r'] _ (by decide)]
    rw [if_pos (by decide : trimA (['\r'] ++ ['\n']) = [])]
    exact congrArg (fun h => HeadersResult.done h rest) (by decide)
  refine ⟨hH, ?_⟩
  rw [readerLoopAux, hH]
  simp only []
  rw [show hGet "Content-Length" [("content-length", "5")] = Option.none by decide]

theorem insert_value_replaces (path : List String) :
    ∀ (target inner : List (String × Json)) (local_key : String) (value old : Json),
      getPath target path = Option.some inner →
      lookupJ local_key inner = Option.some old →
      (insert_value target path local_key value).1 = .error (.replacedOld old) ∧
      getPath (insert_value target path local_key value).2 path =
        Option.some (mapInsert local_key value inner) := by
  induction path with
  | nil =>
    intro target inner lk v old hp ho
    rw [getPath] at hp
    injection hp with h
    subst h
    constructor
    · rw [insert_value, ho]
    · rw [insert_value, ho]
      simp only []
      rw [getPath]
  | cons k ks ih =>
    intro target inner lk v old hp ho
    rw [getPath] at hp
    cases hl : lookupJ k target with
    | none =>
      rw [hl] at hp
      exact Option.noConfusion hp
    | some j =>
      rw [hl] at hp
      cases j with
      | obj i =>
        simp only [] at hp
        obtain ⟨h1, h2⟩ := ih i inner lk v old hp ho
        rw [insert_value, hl]
        constructor
        · simp only []
          exact h1
        · simp only []
          rw [getPath, lookupJ_mapInsert, if_pos rfl]
          simp only []
          exact h2
      | null => exact Option.noConfusion hp
      | bool b => exact Option.noConfusion hp
      | num n => exact Option.noConfusion hp
      | str s => exact Option.noConfusion hp
      | arr xs => exact Option.noConfusion hp

/-- C10: `insert_value` is not atomic on its duplicate-key error path:
whenever the path navigates through existing objects and the leaf key
is already bound, the call returns the `Replaced old value` error
carrying the displaced value, yet the returned map already holds the
new value at the leaf key, with the old value not restored. -/
theorem C10_insert_value_nonatomic (target : List (String × Json))
    (path : List String) (local_key : String) (value old : Json)
    (inner : List (String × Json))
    (hp : getPath target path = Option.some inner)
    (ho : lookupJ local_key inner = Option.some old) :
    (insert_value target path local_key value).1 = .error (.replacedOld old) ∧
    getPath (insert_value target path local_key value).2 path =
      Option.some (mapInsert local_key value inner) ∧
    lookupJ local_key (mapInsert local_key value inner) = Option.some value := by
  obtain ⟨h1, h2⟩ := insert_value_replaces path target inner local_key value old hp ho
  exact ⟨h1, h2, by rw [lookupJ_mapInsert, if_pos rfl]⟩

theorem C10_insert_value_nonatomic_witness :
    (insert_value [("a", .num 1)] [] "a" (.num 2)).1 =
      .error (.replacedOld (.num 1)) ∧
    getPath (insert_value [("a", .num 1)] [] "a" (.num 2)).2 [] =
      Option.some (mapInsert "a" (.num 2) [("a", .num 1)]) ∧
    lookupJ "a" (mapInsert "a" (.num 2) [("a", .num 1)]) = Option.some (.num 2) :=
  C10_insert_value_nonatomic [("a", .num 1)] [] "a" (.num 2) (.num 1)
    [("a", .num 1)] rfl rfl

end KakLsp
